import Mathlib

set_option maxRecDepth 10000

/-!
# Verification of the Watchdog data-cleaning and analysis core

Shallow embedding of the core of `manus_watchdog`:

* `src/backend/app/services/data_cleaner.py` — table cleaning
  (column-name normalization, monetary/date column identification,
  value coercion, missing-value fill);
* `src/backend/app/services/analyzer.py` — grouped aggregation
  (profit by rep, lead-source ROI, sales summary, vehicle metrics);
* `src/app/services/insight_engine.py` — keyword intent detection.

Tables are modelled as ordered lists of named columns.  A column's data
carries its pandas dtype: `strCol` for `object` columns (cells
`Option String`, `none` = NaN), `numCol` for float columns
(`Option ℚ`, `none` = NaN), `dateCol` for `datetime64[ns]` columns
(`Option ℤ` nanoseconds since the Unix epoch, `none` = NaT).

Library calls (`pd.to_numeric`, `pd.to_datetime`, regular expressions)
are modelled by explicit executable functions; each such model notes the
library behaviour it reproduces.
-/

namespace Watchdog

/-! ## String helpers -/

/-- Python `pat in s` (substring containment). -/
def strContains (s pat : String) : Bool :=
  decide (pat.toList <:+: s.toList)

/-- Python `str.lower()` (ASCII; column names and questions here are
ASCII), applied characterwise. -/
def lowerStr (s : String) : String :=
  ⟨s.toList.map Char.toLower⟩

/-- Code-point lexicographic `<` on character lists: Python's `str <`,
which is the order pandas sorts group keys by. -/
def lexLtChars : List Char → List Char → Bool
  | [], [] => false
  | [], _ :: _ => true
  | _ :: _, [] => false
  | c :: cs, d :: ds =>
    if c.toNat < d.toNat then true
    else if d.toNat < c.toNat then false
    else lexLtChars cs ds

/-- Python `a < b` on strings. -/
def strLt (a b : String) : Bool := lexLtChars a.toList b.toList

/-! ### `to_snake_case` (data_cleaner.py lines 63-70)

The function is three `re.sub` passes followed by collapsing underscore
runs, lowercasing and stripping outer underscores.  Each regex pass is
modelled by a scanner with the same non-overlapping left-to-right
semantics as `re.sub`. -/

/-- `re.sub('(.)([A-Z][a-z]+)', r'\1_\2', s)`: insert `_` between any
character and an uppercase letter followed by at least one lowercase
letter; scanning resumes after each match. -/
def sub1 : List Char → List Char
  | [] => []
  | [c] => [c]
  | [c, d] => [c, d]
  | c :: d :: e :: rest =>
    if d.isUpper && e.isLower then
      let lows := rest.takeWhile Char.isLower
      let rest' := rest.dropWhile Char.isLower
      c :: '_' :: d :: e :: (lows ++ sub1 rest')
    else
      c :: sub1 (d :: e :: rest)
termination_by l => l.length
decreasing_by
  · simp only [List.length_cons]
    have h := (List.dropWhile_sublist Char.isLower (l := rest)).length_le
    omega
  · simp only [List.length_cons]
    omega

/-- `re.sub('([a-z0-9])([A-Z])', r'\1_\2', s)`. -/
def sub2 : List Char → List Char
  | [] => []
  | [c] => [c]
  | c :: d :: rest =>
    if (c.isLower || c.isDigit) && d.isUpper then
      c :: '_' :: d :: sub2 rest
    else
      c :: sub2 (d :: rest)
termination_by l => l.length

/-- `re.sub(r'[^a-zA-Z0-9]', '_', s)`, applied characterwise. -/
def sub3Char (c : Char) : Char :=
  if c.isUpper || c.isLower || c.isDigit then c else '_'

/-- `re.sub(r'_+', '_', s)`: collapse runs of underscores. -/
def collapseU : List Char → List Char
  | [] => []
  | c :: rest =>
    if c = '_' then '_' :: collapseU (rest.dropWhile (· = '_'))
    else c :: collapseU rest
termination_by l => l.length
decreasing_by
  · simp only [List.length_cons]
    have h := (List.dropWhile_sublist (fun x => x = '_') (l := rest)).length_le
    omega
  · simp only [List.length_cons]
    omega

/-- Python `str.strip('_')`. -/
def stripU (l : List Char) : List Char :=
  ((l.dropWhile (· = '_')).reverse.dropWhile (· = '_')).reverse

/-- `to_snake_case` (data_cleaner.py lines 63-70). -/
def to_snake_case (name : String) : String :=
  let s1 := sub1 name.toList
  let s2 := sub2 s1
  let s3 := s2.map sub3Char
  let s4 := collapseU s3
  let s5 := s4.map Char.toLower
  ⟨stripU s5⟩

/-- The character class produced by `to_snake_case`: lowercase letter,
digit, or underscore. -/
def isSnakeChar (c : Char) : Bool := c.isLower || c.isDigit || c = '_'

/-- No two adjacent underscores. -/
def NoAdjU (l : List Char) : Prop :=
  l.Chain' (fun a b => ¬(a = '_' ∧ b = '_'))


/-! ### Numeric parsing

Model of `pd.to_numeric(s, errors='coerce')` on a single string cell:
optional surrounding whitespace, optional sign, a decimal digit string
with at most one point and at least one digit.  (Exponent notation is
not covered by this model; no claim exercises it.)  Unparseable cells
become `none` (NaN). -/

/-- The natural number denoted by a list of decimal digits. -/
def digitsToNat (l : List Char) : ℕ :=
  l.foldl (fun n c => n * 10 + (c.toNat - 48)) 0

/-- Digits-with-optional-point body: `digits` or `digits.digits` or
`.digits` or `digits.` with at least one digit overall. -/
def parseDecimalBody (l : List Char) : Option ℚ :=
  let intPart := l.takeWhile Char.isDigit
  match l.dropWhile Char.isDigit with
  | [] =>
    if intPart.isEmpty then none
    else some (digitsToNat intPart)
  | c :: frac =>
    if c = '.' then
      if frac.all Char.isDigit && !(intPart.isEmpty && frac.isEmpty) then
        some ((digitsToNat intPart : ℚ) +
          (digitsToNat frac : ℚ) / ((10 : ℚ) ^ frac.length))
      else none
    else none

/-- `pd.to_numeric(·, errors='coerce')` on one string cell: strip
surrounding spaces, take an optional sign, then a decimal body. -/
def toNumericQ (s : String) : Option ℚ :=
  match (s.toList.dropWhile (· = ' ')).reverse.dropWhile (· = ' ') |>.reverse with
  | [] => none
  | c :: body =>
    if c = '-' then (parseDecimalBody body).map (fun q => -q)
    else if c = '+' then parseDecimalBody body
    else parseDecimalBody (c :: body)

/-! ### Date parsing

Model of `pd.to_datetime` automatic format detection, restricted to ISO
`YYYY-MM-DD` dates (the only shape exercised by the claims).  The value
is nanoseconds since the Unix epoch, as stored by `datetime64[ns]`.
An empty string is accepted by `pd.to_datetime` as NaT without raising;
that case is handled separately at each call site. -/

/-- Days from 1970-01-01 to year `y`, month `m`, day `d` (proleptic
Gregorian, standard civil-days computation). -/
def daysFromCivil (y m d : ℤ) : ℤ :=
  let y' := if m ≤ 2 then y - 1 else y
  let era := (if 0 ≤ y' then y' else y' - 399) / 400
  let yoe := y' - era * 400
  let mp := (m + 9) % 12
  let doy := (153 * mp + 2) / 5 + d - 1
  let doe := yoe * 365 + yoe / 4 - yoe / 100 + doy
  era * 146097 + doe - 719468

/-- Parse a 4-digit, 2-digit or 1-digit decimal field. -/
def allDigits (l : List Char) : Bool := !l.isEmpty && l.all Char.isDigit

/-- Split a character list at a separator (Python `str.split(sep)`). -/
def splitChar (sep : Char) : List Char → List (List Char)
  | [] => [[]]
  | c :: rest =>
    if c = sep then [] :: splitChar sep rest
    else
      match splitChar sep rest with
      | [] => [[c]]
      | h :: t => (c :: h) :: t

/-- ISO `YYYY-MM-DD` → nanoseconds since epoch. -/
def parseDatetimeQ (s : String) : Option ℤ :=
  match splitChar '-' s.toList with
  | [ys, ms, ds] =>
    if allDigits ys && allDigits ms && allDigits ds
        && ys.length = 4 then
      let y : ℤ := digitsToNat ys
      let m : ℤ := digitsToNat ms
      let d : ℤ := digitsToNat ds
      if 1 ≤ m && m ≤ 12 && 1 ≤ d && d ≤ 31 then
        some (daysFromCivil y m d * 86400000000000)
      else none
    else none
  | _ => none

/-! ## Data model -/

/-- Column data with its pandas dtype.  `none` cells are NaN / NaT. -/
inductive ColData where
  | strCol (cells : List (Option String))
  | numCol (cells : List (Option ℚ))
  | dateCol (cells : List (Option ℤ))
deriving DecidableEq, Repr

/-- Number of rows stored in a column. -/
def ColData.rows : ColData → ℕ
  | .strCol cs => cs.length
  | .numCol cs => cs.length
  | .dateCol cs => cs.length

/-- A named column. -/
structure Col where
  name : String
  data : ColData
deriving DecidableEq, Repr

/-- A DataFrame: ordered sequence of named columns. -/
abbrev Table := List Col

/-! ## data_cleaner.py -/

/-- `normalize_column_names` (data_cleaner.py lines 49-75): rename every
column to snake_case; cell data untouched. -/
def normalize_column_names (t : Table) : Table :=
  t.map (fun c => ⟨to_snake_case c.name, c.data⟩)

/-- `pd.api.types.is_numeric_dtype` on a column: float columns are
numeric; `object` and `datetime64` columns are not. -/
def is_numeric_dtype : ColData → Bool
  | .numCol _ => true
  | _ => false

/-- The monetary name patterns of `identify_monetary_columns`
(data_cleaner.py lines 91-95): each is `(^|_)word($|_)`. -/
def monetaryWords : List String :=
  ["price", "profit", "gross", "expense", "cost", "revenue", "sale",
   "amount", "total", "fee", "charge", "budget", "payment", "income"]

/-- Suffixes of `l` that start immediately after an underscore. -/
def afterUnderscores : List Char → List (List Char)
  | [] => []
  | c :: rest =>
    (if c = '_' then [rest] else []) ++ afterUnderscores rest

/-- Does `w` occur in `l` at a position matched by `(^|_)w($|_)`?
Models `re.search` of the patterns in data_cleaner.py lines 91-95. -/
def boundaryMatch (l w : List Char) : Bool :=
  (l :: afterUnderscores l).any (fun suf =>
    decide (w <+: suf) &&
      (match suf.drop w.length with
       | [] => true
       | c :: _ => c = '_'))

/-- Does the (lowercased) column name match one of the monetary name
patterns? -/
def monetary_name_match (name : String) : Bool :=
  monetaryWords.any (fun w => boundaryMatch (lowerStr name).toList w.toList)

/-- Exclusion patterns of `identify_monetary_columns` (line 97):
`re.search` of a literal is substring containment. -/
def excluded_name (name : String) : Bool :=
  ["name", "rep", "id", "number"].any (fun p => strContains (lowerStr name) p)

/-- Does the first-100 non-null sample of an `object` column contain a
`$` or a `,`?  Models `df[column].dropna().astype(str).head(100)
.str.contains(r'\$|,').any()` (data_cleaner.py lines 120-122). -/
def sample_has_dollar_or_comma (cs : List (Option String)) : Bool :=
  ((cs.filterMap id).take 100).any
    (fun s => s.toList.any (fun ch => ch = '$' || ch = ','))

/-- One iteration of the `identify_monetary_columns` loop
(data_cleaner.py lines 99-125): skip numeric columns, skip excluded
names, then match by name pattern, then by value shape (object columns
only). -/
def mon_candidate (c : Col) : Bool :=
  if is_numeric_dtype c.data then false
  else if excluded_name c.name then false
  else if monetary_name_match c.name then true
  else
    match c.data with
    | .strCol cs => sample_has_dollar_or_comma cs
    | _ => false

/-- `identify_monetary_columns` (data_cleaner.py lines 77-128): names of
candidate columns, in column order. -/
def identify_monetary_columns (t : Table) : List String :=
  (t.filter mon_candidate).map Col.name

/-- Strip `$` and `,` characters: `str.replace(r'[$,]', '', regex=True)`
(data_cleaner.py line 145). -/
def strip_dollar_comma (s : String) : String :=
  ⟨s.toList.filter (fun ch => !(ch = '$' || ch = ','))⟩

/-- `clean_monetary_values` (data_cleaner.py lines 130-158):
`astype(str)`, strip `[$,]`, then `pd.to_numeric(errors='coerce')`.
On an `object` column each cell is stripped and parsed (NaN cells render
as `"nan"` and coerce back to NaN).  A float column round-trips
unchanged.  A `datetime64` column renders as date strings, which fail
numeric parsing and coerce to NaN. -/
def clean_monetary_values : ColData → ColData
  | .strCol cs => .numCol (cs.map (fun oc => oc.bind (fun s => toNumericQ (strip_dollar_comma s))))
  | .numCol cs => .numCol cs
  | .dateCol cs => .numCol (cs.map (fun _ => (none : Option ℚ)))

/-- Date name patterns of `identify_date_columns` (data_cleaner.py
lines 173-176), matched by substring containment. -/
def dateWords : List String :=
  ["date", "day", "month", "year", "time", "created", "updated",
   "timestamp", "sold", "purchased", "closed"]

/-- `any(pattern in column.lower() for pattern in date_patterns)`. -/
def date_name_match (name : String) : Bool :=
  dateWords.any (fun p => strContains (lowerStr name) p)

/-- `pd.to_datetime(sample)` on the first-10 non-null sample of an
object column succeeds iff every sampled value is an empty string
(silently NaT) or parses as a date; otherwise it raises, which
`identify_date_columns` catches (data_cleaner.py lines 186-192). -/
def date_sample_parses (cs : List (Option String)) : Bool :=
  ((cs.filterMap id).take 10).all
    (fun s => s = "" || (parseDatetimeQ s).isSome)

/-- One iteration of the `identify_date_columns` loop (data_cleaner.py
lines 179-192): match by name pattern, else try parsing a sample of an
object column. -/
def date_candidate (c : Col) : Bool :=
  if date_name_match c.name then true
  else
    match c.data with
    | .strCol cs => date_sample_parses cs
    | _ => false

/-- `identify_date_columns` (data_cleaner.py lines 160-194). -/
def identify_date_columns (t : Table) : List String :=
  (t.filter date_candidate).map Col.name

/-- `pd.to_numeric(series, errors='coerce')` on a whole column: object
cells are parsed, float columns are unchanged, datetime columns are not
in scope of this model (their cells are mapped to NaN). -/
def to_numeric_coldata : ColData → ColData
  | .strCol cs => .numCol (cs.map (fun oc => oc.bind toNumericQ))
  | .numCol cs => .numCol cs
  | .dateCol cs => .numCol (cs.map (fun _ => (none : Option ℚ)))

/-- `pd.to_datetime(series, errors='coerce')` on a whole column: object
cells parse individually (unparseable and empty cells become NaT), a
float column is reinterpreted as nanoseconds since the epoch, a
datetime column is returned unchanged. -/
def to_datetime_coerce : ColData → ColData
  | .strCol cs => .dateCol (cs.map (fun oc => oc.bind parseDatetimeQ))
  | .numCol cs => .dateCol (cs.map (fun oq => oq.map (fun q => ⌊q⌋)))
  | .dateCol cs => .dateCol cs

/-- `pd.to_datetime(series, format='%Y', errors='coerce')`: a string
cell consisting of exactly four digits parses as midnight Jan 1 of that
year; float cells render with a decimal point and fail `%Y`; datetime
columns are returned unchanged. -/
def to_datetime_year : ColData → ColData
  | .strCol cs =>
    .dateCol (cs.map (fun oc => oc.bind (fun s =>
      if allDigits s.toList && s.toList.length = 4 then
        some (daysFromCivil (digitsToNat s.toList) 1 1 * 86400000000000)
      else none)))
  | .numCol cs => .dateCol (cs.map (fun _ => (none : Option ℤ)))
  | .dateCol cs => .dateCol cs

/-- `clean_dates` (data_cleaner.py lines 196-242), given the column's
name and data: `days_to_close` columns are coerced to numeric;
`vehicle_year` columns are parsed with `%Y`; price columns are returned
unchanged; otherwise generic datetime conversion with coercion. -/
def clean_dates (name : String) (d : ColData) : ColData :=
  let n := lowerStr name
  if strContains n "days_to_close" then to_numeric_coldata d
  else if strContains n "vehicle_year" then to_datetime_year d
  else if strContains n "sold_price" || strContains n "price" then d
  else to_datetime_coerce d

/-- `handle_missing_values` (data_cleaner.py lines 244-281): numeric
columns fill NaN with 0, object columns fill NaN with `''`, datetime
columns are untouched (they are neither `number` nor `object`). -/
def handle_missing_values (t : Table) : Table :=
  t.map (fun c =>
    ⟨c.name,
      match c.data with
      | .numCol cs => .numCol (cs.map (fun oq => some (oq.getD 0)))
      | .strCol cs => .strCol (cs.map (fun oc => some (oc.getD "")))
      | .dateCol cs => .dateCol cs⟩)

/-- The monetary-cleaning loop of `clean_data` (data_cleaner.py lines
32-35): every column whose name was identified is replaced by its
cleaned values.  (With duplicate column names pandas indexing is not
well defined; the model cleans each column whose name is in the list.) -/
def clean_data_monetary_pass (t : Table) : Table :=
  let ms := identify_monetary_columns t
  t.map (fun c => if c.name ∈ ms then ⟨c.name, clean_monetary_values c.data⟩ else c)

/-- The date-cleaning loop of `clean_data` (data_cleaner.py lines
37-40). -/
def clean_data_date_pass (t : Table) : Table :=
  let ds := identify_date_columns t
  t.map (fun c => if c.name ∈ ds then ⟨c.name, clean_dates c.name c.data⟩ else c)

/-- `clean_data` (data_cleaner.py lines 14-47): copy, normalize names,
clean monetary columns, clean date columns, fill missing values. -/
def clean_data (t : Table) : Table :=
  handle_missing_values
    (clean_data_date_pass
      (clean_data_monetary_pass
        (normalize_column_names t)))

/-- The per-column action of the monetary-cleaning loop over table
`u`: clean the column iff its name was identified. -/
def mon_step (u : Table) (c : Col) : Col :=
  if c.name ∈ identify_monetary_columns u then
    ⟨c.name, clean_monetary_values c.data⟩
  else c

/-- The per-column action of the date-cleaning loop over table `u`. -/
def date_step (u : Table) (c : Col) : Col :=
  if c.name ∈ identify_date_columns u then
    ⟨c.name, clean_dates c.name c.data⟩
  else c

/-- The per-column action of `handle_missing_values`. -/
def fill_col (c : Col) : Col :=
  ⟨c.name,
    match c.data with
    | .numCol cs => .numCol (cs.map (fun oq => some (oq.getD 0)))
    | .strCol cs => .strCol (cs.map (fun oc => some (oc.getD "")))
    | .dateCol cs => .dateCol cs⟩

/-- Candidate-based per-column monetary step: on a table with distinct
column names, membership of a column's name in
`identify_monetary_columns` is equivalent to the column itself being a
candidate. -/
def mon_step_cand (c : Col) : Col :=
  if mon_candidate c then ⟨c.name, clean_monetary_values c.data⟩ else c

/-- Candidate-based per-column date step. -/
def date_step_cand (c : Col) : Col :=
  if date_candidate c then ⟨c.name, clean_dates c.name c.data⟩ else c

/-- The whole per-column action of `clean_data` after name
normalization (valid on tables with distinct column names). -/
def clean_col (c : Col) : Col :=
  fill_col (date_step_cand (mon_step_cand c))

/-- Is the column of `datetime64` dtype? -/
def is_datetime_dtype : ColData → Bool
  | .dateCol _ => true
  | _ => false

/-- A date-identified column is in canonical form already: a
`days_to_close` column is numeric, a `vehicle_year` column is a date
column, price-named columns may be anything (`clean_dates` never
touches them), and any other date-identified column is a date column. -/
def date_branch_ok (c : Col) : Bool :=
  if strContains (lowerStr c.name) "days_to_close" = true then
    is_numeric_dtype c.data
  else if strContains (lowerStr c.name) "vehicle_year" = true then
    is_datetime_dtype c.data
  else if (strContains (lowerStr c.name) "sold_price" ||
      strContains (lowerStr c.name) "price") = true then
    true
  else
    is_datetime_dtype c.data

/-- An `object` column has no missing values (so the missing-value
fill does not change it). -/
def str_no_missing (c : Col) : Bool :=
  match c.data with
  | .strCol cs => cs.all (fun oc => oc.isSome)
  | _ => true

/-! ## analyzer.py

The analyzer looks columns up by substring patterns on lowercased
names, always taking the first match in column order, groups rows with
`df.groupby` (which sorts the distinct non-null keys ascending and drops
NaN keys) and sums/averages with pandas' skip-NaN semantics.

A Python float appearing in a result record is `Option ℚ` with `none`
for NaN.  Operations the source would abort with a pandas/`float()`
`TypeError` (e.g. numeric aggregation over a non-numeric column,
grouping by a non-string column) are modelled as `none` at the function
level; no claim exercises those paths. -/

/-- A Python float value: `none` is NaN. -/
abbrev PFloat := Option ℚ

/-- `[col for col in df.columns if any(term in col.lower() for term in
terms)][0]`: first column whose lowercased name contains one of the
terms. -/
def find_col (t : Table) (terms : List String) : Option Col :=
  t.find? (fun c => terms.any (fun term => strContains (lowerStr c.name) term))

/-- Insert into a strictly ascending list, dropping duplicates. -/
def insertKey (x : String) : List String → List String
  | [] => [x]
  | y :: ys =>
    if strLt x y then x :: y :: ys
    else if x = y then y :: ys
    else y :: insertKey x ys

/-- The distinct non-null keys of a group-by column, sorted ascending:
`df.groupby(col)` iterates keys in sorted order and drops NaN keys. -/
def sorted_unique (l : List String) : List String :=
  l.foldl (fun acc x => insertKey x acc) []

/-- Stable insertion preserving descending key order: an element is
placed before the first entry whose key is not larger. -/
def insertDescBy (key : α → ℚ) (x : α) : List α → List α
  | [] => [x]
  | y :: ys => if key x < key y then y :: insertDescBy key x ys else x :: y :: ys

/-- Stable sort, descending by `key`: Python's
`list.sort(key=..., reverse=True)` (stable; ties keep original order).
Where the source instead uses pandas `sort_values` (default quicksort,
tie order unspecified) this model is used too and no theorem depends on
its tie order. -/
def sortDescBy (key : α → ℚ) : List α → List α
  | [] => []
  | x :: xs => insertDescBy key x (sortDescBy key xs)

/-- Indices of the rows belonging to group `k` of a group-by column. -/
def rowsIdx (cells : List (Option String)) (k : String) : List ℕ :=
  (List.range cells.length).filter (fun i => cells.getD i none = some k)

/-- The values of a numeric column at the given row indices. -/
def groupSlice (idxs : List ℕ) (cs : List (Option ℚ)) : List (Option ℚ) :=
  idxs.map (fun i => cs.getD i none)

/-- `Series.sum()` with pandas' default `skipna=True`; the empty or
all-NaN sum is `0.0`. -/
def sumSkipna (l : List (Option ℚ)) : ℚ :=
  (l.filterMap id).sum

/-- `Series.mean()` with `skipna=True`; NaN when no non-null value. -/
def meanSkipna (l : List (Option ℚ)) : PFloat :=
  let v := l.filterMap id
  if v.length = 0 then none else some (v.sum / v.length)

/-- The numeric cells of a column; `none` when the column is not
numeric (a numeric aggregate over it would raise). -/
def numCells : ColData → Option (List (Option ℚ))
  | .numCol cs => some cs
  | _ => none

/-- The string cells of a column; `none` when the column is not an
`object` column (grouping by it is outside this model). -/
def strCells : ColData → Option (List (Option String))
  | .strCol cs => some cs
  | _ => none

/-- One record of `get_profit_by_rep` (analyzer.py lines 731-739). -/
structure RepRec where
  name : String
  sale_count : ℕ
  total_profit : ℚ
  average_profit : PFloat
deriving DecidableEq, Repr

/-- `get_profit_by_rep` (analyzer.py lines 716-744): group by the first
rep column, sum/mean profit per group, then Python-stable sort
descending by `total_profit`. -/
def get_profit_by_rep (t : Table) : Option (List RepRec) :=
  match find_col t ["sales_rep", "salesperson", "rep_name"],
        find_col t ["profit"] with
  | some repc, some profc =>
    match strCells repc.data, numCells profc.data with
    | some reps, some profits =>
      let keys := sorted_unique (reps.filterMap id)
      let recs := keys.map (fun k =>
        let g := rowsIdx reps k
        let ps := groupSlice g profits
        { name := k
          sale_count := g.length
          total_profit := sumSkipna ps
          average_profit := meanSkipna ps : RepRec })
      some (sortDescBy RepRec.total_profit recs)
    | _, _ => none
  | _, _ => some []

/-- One record of `get_lead_source_roi` (analyzer.py lines 1112-1120). -/
structure RoiRec where
  name : String
  total_profit : ℚ
  total_expense : ℚ
  sale_count : ℕ
  roi : ℚ
deriving DecidableEq, Repr

/-- `get_lead_source_roi` (analyzer.py lines 1077-1122): group by the
first lead-source column, sum profit and expense per group, count rows,
compute `roi = total_profit / total_expense * 100` when
`total_expense > 0` else `0`, and sort descending by roi. -/
def get_lead_source_roi (t : Table) : Option (List RoiRec) :=
  match find_col t ["lead_source", "source"], find_col t ["profit"],
        find_col t ["expense", "cost"] with
  | some sc, some pc, some ec =>
    match strCells sc.data, numCells pc.data, numCells ec.data with
    | some srcs, some profits, some expenses =>
      let keys := sorted_unique (srcs.filterMap id)
      let recs := keys.map (fun k =>
        let g := rowsIdx srcs k
        let tp := sumSkipna (groupSlice g profits)
        let te := sumSkipna (groupSlice g expenses)
        { name := k
          total_profit := tp
          total_expense := te
          sale_count := g.length
          roi := if 0 < te then tp / te * 100 else 0 : RoiRec })
      some (sortDescBy RoiRec.roi recs)
    | _, _, _ => none
  | _, _, _ => some []

/-! ### `analyze_sales` summary block -/

/-- A raw cell value copied into a result record. -/
inductive CellV where
  | s (v : Option String)
  | n (v : Option ℚ)
  | d (v : Option ℤ)
deriving DecidableEq, Repr

/-- The cell of a column at row `i`. -/
def cellAt (d : ColData) (i : ℕ) : CellV :=
  match d with
  | .strCol cs => .s (cs.getD i none)
  | .numCol cs => .n (cs.getD i none)
  | .dateCol cs => .d (cs.getD i none)

/-- Number of rows of the table (`len(df)`); columns of a DataFrame all
have the same length, so the first column's length is used. -/
def tableRows (t : Table) : ℕ :=
  (t.head?.map (fun c => c.data.rows)).getD 0

/-- `get_total_sales` (analyzer.py lines 259-268): `0.0` when no price
column exists, else the skip-NaN sum of the first price column.
`none` models the non-numeric-column failure path. -/
def get_total_sales (t : Table) : Option ℚ :=
  match find_col t ["sold_price", "selling_price", "sale_price"] with
  | none => some 0
  | some c => (numCells c.data).map sumSkipna

/-- `get_average_sale_price` (analyzer.py lines 457-466): `0.0` when no
price column exists, else the mean of the first price column (NaN when
the column has no non-null value). -/
def get_average_sale_price (t : Table) : Option PFloat :=
  match find_col t ["sold_price", "selling_price", "sale_price"] with
  | none => some (some 0)
  | some c => (numCells c.data).map meanSkipna

/-- The record built by `get_highest_sale`/`get_lowest_sale`
(analyzer.py lines 485-500): the extreme price, the raw cells of any of
the literal columns `vehicle`, `vehicle_make`, `vehicle_model`,
`vehicle_year` present, and the raw rep cell when a rep column exists. -/
structure SaleRec where
  price : ℚ
  vehicle : List (String × CellV)
  sales_rep : Option CellV
deriving DecidableEq, Repr

/-- The `vehicle_cols` loop of `get_highest_sale`/`get_lowest_sale`:
exact-name membership in `df.columns`, keeping the row's raw cell. -/
def vehicleFields (t : Table) (i : ℕ) : List (String × CellV) :=
  ["vehicle", "vehicle_make", "vehicle_model", "vehicle_year"].filterMap
    (fun n => (t.find? (fun c => c.name = n)).map (fun c => (n, cellAt c.data i)))

/-- Build the extreme-sale record at row `i` with price `m`. -/
def saleRecAt (t : Table) (i : ℕ) (m : ℚ) : SaleRec :=
  { price := m
    vehicle := vehicleFields t i
    sales_rep :=
      (find_col t ["sales_rep", "salesperson", "rep_name"]).map
        (fun rc => cellAt rc.data i) }

/-- `get_highest_sale` (analyzer.py lines 468-500): `None` without a
price column or with an empty table; otherwise the row of the first
(`idxmax`) maximal non-null price.  The outer `none` models the
exception `idxmax` raises on an all-NaN or non-numeric column.  Row
labels are positions (the default RangeIndex). -/
def get_highest_sale (t : Table) : Option (Option SaleRec) :=
  match find_col t ["sold_price", "selling_price", "sale_price"] with
  | none => some none
  | some pcol =>
    if tableRows t = 0 then some none
    else
      match numCells pcol.data with
      | none => none
      | some cs =>
        match (cs.filterMap id).max? with
        | none => none
        | some m =>
          match cs.findIdx? (fun oc => oc = some m) with
          | none => none
          | some i => some (some (saleRecAt t i m))

/-- `get_lowest_sale` (analyzer.py lines 502-534): symmetric, with
`idxmin`. -/
def get_lowest_sale (t : Table) : Option (Option SaleRec) :=
  match find_col t ["sold_price", "selling_price", "sale_price"] with
  | none => some none
  | some pcol =>
    if tableRows t = 0 then some none
    else
      match numCells pcol.data with
      | none => none
      | some cs =>
        match (cs.filterMap id).min? with
        | none => none
        | some m =>
          match cs.findIdx? (fun oc => oc = some m) with
          | none => none
          | some i => some (some (saleRecAt t i m))

/-- A value stored in the `summary` dict of `analyze_sales`. -/
inductive SVal where
  | num (q : ℚ)
  | nan
  | null
  | srec (r : SaleRec)
deriving DecidableEq, Repr

/-- The `summary` block built by `analyze_sales` (analyzer.py lines
109-115), as the ordered key/value list of the Python dict.  `None`
entries become `null`; a NaN float becomes `nan`. -/
def analyze_sales_summary (t : Table) : Option (List (String × SVal)) :=
  match get_total_sales t, get_average_sale_price t,
        get_highest_sale t, get_lowest_sale t with
  | some ts, some asp, some hs, some ls =>
    some [("total_sales", .num ts),
          ("average_sale_price",
            match asp with | none => .nan | some q => .num q),
          ("highest_sale",
            match hs with | none => .null | some r => .srec r),
          ("lowest_sale",
            match ls with | none => .null | some r => .srec r)]
  | _, _, _, _ => none

/-! ### `get_vehicle_metrics` -/

/-- One record of `get_vehicle_metrics` (analyzer.py lines 1276-1299).
A `none` in an outer `Option` field means the key is absent from the
dict (its column was not found). -/
structure VehicleRec where
  vtype : String
  sale_count : ℕ
  total_profit : Option ℚ
  average_profit : Option PFloat
  total_sales : Option ℚ
  average_sale : Option PFloat
  average_days_to_sell : Option PFloat
deriving DecidableEq, Repr

/-- `df[col1] + ' ' + df[col2]` on two `object` columns: elementwise
concatenation, NaN propagating. -/
def concatCells (a b : List (Option String)) : List (Option String) :=
  List.zipWith (fun x y =>
    match x, y with
    | some u, some v => some (u ++ " " ++ v)
    | _, _ => none) a b

/-- `df['vehicle_type'] = series`: replace the column of that name if
present, else append it as the last column. -/
def setColOrAppend (t : Table) (n : String) (d : ColData) : Table :=
  if t.any (fun c => c.name = n) then
    t.map (fun c => if c.name = n then ⟨n, d⟩ else c)
  else t ++ [⟨n, d⟩]

/-- Numeric cells of an optional metric column: `none` when the column
is absent (the metric key is omitted), `some none` when aggregation
over it would raise (non-numeric dtype). -/
def optNumCells (oc : Option Col) : Option (Option (List (Option ℚ))) :=
  match oc with
  | none => some none
  | some c => (numCells c.data).map some

/-- `get_vehicle_metrics` (analyzer.py lines 1251-1309).  Returns the
metric records **and the caller's DataFrame as it is left afterwards**:
when both a make and a model column are found, line 1265 writes a new
`vehicle_type` column into the caller's `df` before grouping by it. -/
def get_vehicle_metrics (t : Table) : Option (List VehicleRec × Table) :=
  let profc := find_col t ["profit"]
  let pricec := find_col t ["sold_price", "selling_price", "sale_price"]
  let daysc := find_col t ["days_to_close", "days_to_sell"]
  let grouped : Option (Option (List (Option String) × Table)) :=
    match find_col t ["make", "vehicle_make"],
          find_col t ["model", "vehicle_model"] with
    | some mk, some md =>
      match strCells mk.data, strCells md.data with
      | some ms, some mds =>
        let vt := concatCells ms mds
        some (some (vt, setColOrAppend t "vehicle_type" (.strCol vt)))
      | _, _ => none
    | some mk, none => (strCells mk.data).map (fun ms => some (ms, t))
    | none, some md => (strCells md.data).map (fun mds => some (mds, t))
    | none, none => some none
  match grouped with
  | none => none
  | some none => some ([], t)
  | some (some (cells, t')) =>
    match optNumCells profc, optNumCells pricec, optNumCells daysc with
    | some pcells, some prcells, some dcells =>
      let keys := sorted_unique (cells.filterMap id)
      let recs := keys.map (fun k =>
        let g := rowsIdx cells k
        { vtype := k
          sale_count := g.length
          total_profit := pcells.map (fun cs => sumSkipna (groupSlice g cs))
          average_profit := pcells.map (fun cs => meanSkipna (groupSlice g cs))
          total_sales := prcells.map (fun cs => sumSkipna (groupSlice g cs))
          average_sale := prcells.map (fun cs => meanSkipna (groupSlice g cs))
          average_days_to_sell :=
            dcells.map (fun cs => meanSkipna (groupSlice g cs)) : VehicleRec })
      let sorted :=
        if profc.isSome then
          sortDescBy (fun r => r.total_profit.getD 0) recs
        else if pricec.isSome then
          sortDescBy (fun r => r.total_sales.getD 0) recs
        else
          sortDescBy (fun r => (r.sale_count : ℚ)) recs
      some (sorted, t')
    | _, _, _ => none

/-! ## insight_engine.py -/

/-- `determine_intent` (insight_engine.py lines 545-576): sequential
substring tests against the (already lowercased) question; the first
matching keyword set wins. -/
def determine_intent (question : String) : String :=
  if ["sales", "revenue", "sold", "selling", "sell"].any
      (fun term => strContains question term) then "sales_analysis"
  else if ["profit", "margin", "profitable", "earnings", "money"].any
      (fun term => strContains question term) then "profit_analysis"
  else if ["rep", "representative", "salesperson", "sales person", "team"].any
      (fun term => strContains question term) then "rep_performance"
  else if ["lead", "source", "marketing", "advertisement", "campaign"].any
      (fun term => strContains question term) then "lead_source_analysis"
  else if ["vehicle", "car", "make", "model", "brand"].any
      (fun term => strContains question term) then "vehicle_analysis"
  else "general_analysis"

/-! ## Concrete tables used as witnesses and counterexamples -/

/-- A raw table whose only column is named like a monetary amount but
holds a date-like value: the false-positive-monetary scenario. -/
def exMonDate : Table :=
  [⟨"amount", .strCol [some "01/02/2023", some "$5"]⟩]

/-- Two reps with equal profit; `zed` occurs first in the table. -/
def exTie : Table :=
  [⟨"sales_rep", .strCol [some "zed", some "amy"]⟩,
   ⟨"profit", .numCol [some 10, some 10]⟩]

/-- A make and a model column: `get_vehicle_metrics` writes a
`vehicle_type` column into this table. -/
def exVehicle : Table :=
  [⟨"make", .strCol [some "Toyota"]⟩,
   ⟨"model", .strCol [some "Camry"]⟩,
   ⟨"profit", .numCol [some 100]⟩]

/-- A raw `Days To Close` column of numeric strings. -/
def exDays : Table :=
  [⟨"Days To Close", .strCol [some "12", some "30"]⟩]

/-- A table with rep and profit columns but no price column. -/
def exNoPrice : Table :=
  [⟨"rep_name", .strCol [some "a"]⟩, ⟨"profit", .numCol [some 5]⟩]

/-- A lead source with profit 1000 and expense 0. -/
def exRoi : Table :=
  [⟨"lead_source", .strCol [some "web"]⟩,
   ⟨"profit", .numCol [some 1000]⟩,
   ⟨"expense", .numCol [some 0]⟩]

/-- An unclassified text column with nine missing cells before a
date-like value and an unparseable value.  Neither a monetary nor a
date column, yet cleaning it twice differs from cleaning it once: the
missing-value fill inserts empty strings, which shift the 10-cell
date-detection sample window of the second pass. -/
def exShift : Table :=
  [⟨"notes", .strCol [none, none, none, none, none, none, none, none, none,
     some "2020-01-01", some "garbage"]⟩]

/-- An already-clean table: a canonical date column and a canonical
numeric profit column.  The date column's name avoids the monetary
name patterns (`sale_date` would match `(^|_)sale($|_)`). -/
def exClean : Table :=
  [⟨"created_date", .dateCol [some 1577836800000000000]⟩,
   ⟨"profit", .numCol [some 5]⟩]

/-- An excluded-name column whose values contain a dollar sign. -/
def exRepId : Table :=
  [⟨"rep_id", .strCol [some "$5"]⟩]

/-! ## Shared lemmas -/

theorem strContains_trans {q pat sub : String}
    (h1 : strContains q pat = true) (h2 : strContains pat sub = true) :
    strContains q sub = true := by
  simp only [strContains, decide_eq_true_eq] at *
  exact h2.trans h1

theorem mem_insertDescBy {f : α → ℚ} {x y : α} {l : List α} :
    y ∈ insertDescBy f x l ↔ y = x ∨ y ∈ l := by
  induction l with
  | nil => simp [insertDescBy]
  | cons z zs ih =>
    simp only [insertDescBy]
    split
    · simp only [List.mem_cons, ih]
      tauto
    · simp [List.mem_cons]

theorem mem_sortDescBy {f : α → ℚ} {y : α} {l : List α} :
    y ∈ sortDescBy f l ↔ y ∈ l := by
  induction l with
  | nil => simp [sortDescBy]
  | cons z zs ih =>
    simp only [sortDescBy, mem_insertDescBy, List.mem_cons, ih]

/-- Inserting an element related to everything in the list preserves the
combined order "strictly larger key, or equal f and `S`-before". -/
theorem insertDescBy_pairwise {f : α → ℚ} {S : α → α → Prop} {x : α}
    {l : List α}
    (hl : l.Pairwise (fun a b => f b < f a ∨ (f a = f b ∧ S a b)))
    (hx : ∀ y ∈ l, S x y) :
    (insertDescBy f x l).Pairwise
      (fun a b => f b < f a ∨ (f a = f b ∧ S a b)) := by
  induction l with
  | nil => simp [insertDescBy]
  | cons z zs ih =>
    rcases List.pairwise_cons.mp hl with ⟨hz, hzs⟩
    simp only [insertDescBy]
    split
    · rename_i hlt
      refine List.pairwise_cons.mpr ⟨?_, ih hzs (fun y hy => hx y (List.mem_cons_of_mem _ hy))⟩
      intro y hy
      rcases mem_insertDescBy.mp hy with rfl | hy'
      · exact Or.inl hlt
      · exact hz y hy'
    · rename_i hge
      push_neg at hge
      refine List.pairwise_cons.mpr ⟨?_, hl⟩
      intro y hy
      rcases List.mem_cons.mp hy with rfl | hy'
      · rcases lt_or_eq_of_le hge with h | h
        · exact Or.inl h
        · exact Or.inr ⟨h.symm, hx y (List.mem_cons_self _ _)⟩
      · rcases hz y hy' with h | ⟨heq, hS⟩
        · exact Or.inl (lt_of_lt_of_le h hge)
        · rcases lt_or_eq_of_le (heq ▸ hge) with h | h
          · exact Or.inl h
          · exact Or.inr ⟨h.symm, hx y (List.mem_cons_of_mem _ hy')⟩

/-- A stable descending sort of an `S`-pairwise list is pairwise for
"strictly larger key, or equal f and `S`-before": ties keep their
input order. -/
theorem sortDescBy_pairwise {f : α → ℚ} {S : α → α → Prop} {l : List α}
    (h : l.Pairwise S) :
    (sortDescBy f l).Pairwise
      (fun a b => f b < f a ∨ (f a = f b ∧ S a b)) := by
  induction l with
  | nil => simp [sortDescBy]
  | cons x xs ih =>
    rcases List.pairwise_cons.mp h with ⟨hx, hxs⟩
    exact insertDescBy_pairwise (ih hxs)
      (fun y hy => hx y (mem_sortDescBy.mp hy))

theorem lexLtChars_trans {a b c : List Char}
    (h1 : lexLtChars a b = true) (h2 : lexLtChars b c = true) :
    lexLtChars a c = true := by
  induction a generalizing b c with
  | nil =>
    cases b with
    | nil => exact absurd h1 (by simp [lexLtChars])
    | cons y ys =>
      cases c with
      | nil => exact absurd h2 (by simp [lexLtChars])
      | cons z zs => simp [lexLtChars]
  | cons x xs ih =>
    cases b with
    | nil => exact absurd h1 (by simp [lexLtChars])
    | cons y ys =>
      cases c with
      | nil => exact absurd h2 (by simp [lexLtChars])
      | cons z zs =>
        simp only [lexLtChars] at h1 h2 ⊢
        split at h1
        · rename_i hxy
          split at h2
          · rename_i hyz
            simp [show x.toNat < z.toNat by omega]
          · split at h2
            · exact absurd h2 (by simp)
            · rename_i hyz hzy
              simp [show x.toNat < z.toNat by omega]
        · split at h1
          · exact absurd h1 (by simp)
          · rename_i hxy hyx
            split at h2
            · rename_i hyz
              simp [show x.toNat < z.toNat by omega]
            · split at h2
              · exact absurd h2 (by simp)
              · rename_i hyz hzy
                have hxz : ¬ x.toNat < z.toNat := by omega
                have hzx : ¬ z.toNat < x.toNat := by omega
                simp only [hxz, if_false, hzx]
                exact ih h1 h2

theorem strLt_trans {a b c : String}
    (h1 : strLt a b = true) (h2 : strLt b c = true) : strLt a c = true :=
  lexLtChars_trans h1 h2

theorem lexLtChars_total {a b : List Char} (h : a ≠ b) :
    lexLtChars a b = true ∨ lexLtChars b a = true := by
  induction a generalizing b with
  | nil =>
    cases b with
    | nil => exact absurd rfl h
    | cons y ys => left; simp [lexLtChars]
  | cons x xs ih =>
    cases b with
    | nil => right; simp [lexLtChars]
    | cons y ys =>
      by_cases hxy : x.toNat < y.toNat
      · left; simp [lexLtChars, hxy]
      · by_cases hyx : y.toNat < x.toNat
        · right; simp [lexLtChars, hyx]
        · have hx : x = y := Char.eq_of_val_eq (UInt32.ext (by
            simp only [Char.toNat] at hxy hyx
            omega))
          subst hx
          have hne : xs ≠ ys := fun hc => h (by rw [hc])
          rcases ih hne with h1 | h1
          · left; simp [lexLtChars, hxy, hyx, h1]
          · right; simp [lexLtChars, hxy, hyx, h1]

theorem strLt_total {a b : String} (h : a ≠ b) :
    strLt a b = true ∨ strLt b a = true := by
  have hl : a.toList ≠ b.toList := fun hc => h (String.ext hc)
  exact lexLtChars_total hl

theorem mem_insertKey {x y : String} {l : List String} :
    y ∈ insertKey x l ↔ y = x ∨ y ∈ l := by
  induction l with
  | nil => simp [insertKey]
  | cons z zs ih =>
    simp only [insertKey]
    split
    · simp [List.mem_cons]
    · split
      · rename_i hlt heq
        subst heq
        simp only [List.mem_cons]
        tauto
      · simp only [List.mem_cons, ih]
        tauto

theorem insertKey_pairwise {x : String} {l : List String}
    (h : l.Pairwise (fun a b => strLt a b = true)) :
    (insertKey x l).Pairwise (fun a b => strLt a b = true) := by
  induction l with
  | nil => simp [insertKey]
  | cons z zs ih =>
    rcases List.pairwise_cons.mp h with ⟨hz, hzs⟩
    simp only [insertKey]
    split
    · rename_i hlt
      refine List.pairwise_cons.mpr ⟨?_, h⟩
      intro y hy
      rcases List.mem_cons.mp hy with rfl | hy'
      · exact hlt
      · exact strLt_trans hlt (hz y hy')
    · split
      · exact h
      · rename_i hnlt hne
        refine List.pairwise_cons.mpr ⟨?_, ih hzs⟩
        intro y hy
        rcases mem_insertKey.mp hy with rfl | hy'
        · rcases strLt_total hne with h1 | h1
          · exact absurd h1 hnlt
          · exact h1
        · exact hz y hy'

theorem sorted_unique_pairwise (l : List String) :
    (sorted_unique l).Pairwise (fun a b => strLt a b = true) := by
  suffices h : ∀ acc : List String, acc.Pairwise (fun a b => strLt a b = true) →
      (l.foldl (fun acc x => insertKey x acc) acc).Pairwise
        (fun a b => strLt a b = true) by
    exact h [] (List.Pairwise.nil)
  induction l with
  | nil => intro acc hacc; exact hacc
  | cons x xs ih =>
    intro acc hacc
    exact ih _ (insertKey_pairwise hacc)

/-! ### Character facts for snake_case idempotence -/

theorem isUpper_iff (c : Char) : c.isUpper = true ↔ 65 ≤ c.toNat ∧ c.toNat ≤ 90 := by
  simp [Char.isUpper, Char.toNat, UInt32.le_def, BitVec.le_def, UInt32.toNat,
    Bool.and_eq_true, decide_eq_true_iff, GE.ge]

theorem isLower_iff (c : Char) : c.isLower = true ↔ 97 ≤ c.toNat ∧ c.toNat ≤ 122 := by
  simp [Char.isLower, Char.toNat, UInt32.le_def, BitVec.le_def, UInt32.toNat,
    Bool.and_eq_true, decide_eq_true_iff, GE.ge]

theorem isDigit_iff (c : Char) : c.isDigit = true ↔ 48 ≤ c.toNat ∧ c.toNat ≤ 57 := by
  simp [Char.isDigit, Char.toNat, UInt32.le_def, BitVec.le_def, UInt32.toNat,
    Bool.and_eq_true, decide_eq_true_iff, GE.ge]

theorem toLower_eq_self {c : Char} (h : ¬(65 ≤ c.toNat ∧ c.toNat ≤ 90)) :
    c.toLower = c := by
  unfold Char.toLower
  simp only []
  rw [if_neg h]

theorem toNat_toLower_upper {c : Char} (h : 65 ≤ c.toNat ∧ c.toNat ≤ 90) :
    (c.toLower).toNat = c.toNat + 32 := by
  unfold Char.toLower
  simp only []
  rw [if_pos h]
  have hvalid : (c.toNat + 32).isValidChar := Or.inl (by
    rcases h with ⟨h1, h2⟩
    omega)
  rw [Char.ofNat, dif_pos hvalid]
  rfl

theorem toNat_underscore : ('_' : Char).toNat = 95 := by decide

theorem toNat_inj {c d : Char} (h : c.toNat = d.toNat) : c = d :=
  Char.eq_of_val_eq (UInt32.ext h)

theorem not_upper_of_snake {c : Char} (h : isSnakeChar c = true) :
    c.isUpper = false := by
  rw [Bool.eq_false_iff]
  intro hu
  rw [isUpper_iff] at hu
  rcases Bool.or_eq_true_iff.mp h with h1 | h1
  · rcases Bool.or_eq_true_iff.mp h1 with h2 | h2
    · rw [isLower_iff] at h2
      omega
    · rw [isDigit_iff] at h2
      omega
  · have : c = '_' := by simpa using h1
    subst this
    rw [toNat_underscore] at hu
    omega

theorem toLower_eq_underscore_iff {c : Char} : c.toLower = '_' ↔ c = '_' := by
  constructor
  · intro h
    by_cases hc : 65 ≤ c.toNat ∧ c.toNat ≤ 90
    · exfalso
      have := toNat_toLower_upper hc
      rw [h, toNat_underscore] at this
      omega
    · rwa [toLower_eq_self hc] at h
  · intro h
    subst h
    decide

theorem toLower_of_snake {c : Char} (h : isSnakeChar c = true) :
    c.toLower = c := by
  apply toLower_eq_self
  intro hc
  have := not_upper_of_snake h
  rw [Bool.eq_false_iff] at this
  exact this (isUpper_iff c |>.mpr hc)

theorem snake_toLower (c : Char)
    (h : (c.isUpper || c.isLower || c.isDigit || decide (c = '_')) = true) :
    isSnakeChar c.toLower = true := by
  rcases Bool.or_eq_true_iff.mp h with h1 | h1
  · rcases Bool.or_eq_true_iff.mp h1 with h2 | h2
    · rcases Bool.or_eq_true_iff.mp h2 with h3 | h3
      · -- uppercase: toLower shifts into the lowercase range
        rw [isUpper_iff] at h3
        have := toNat_toLower_upper h3
        unfold isSnakeChar
        rw [Bool.or_eq_true_iff, Bool.or_eq_true_iff, isLower_iff, this]
        left; left
        omega
      · -- lowercase: fixed by toLower
        unfold isSnakeChar
        rw [isLower_iff] at h3
        rw [toLower_eq_self (by omega)]
        simp [isLower_iff, h3]
    · -- digit: fixed by toLower
      unfold isSnakeChar
      rw [isDigit_iff] at h2
      rw [toLower_eq_self (by omega)]
      simp [isDigit_iff, h2]
  · -- underscore
    have : c = '_' := by simpa using h1
    subst this
    decide

/-! ### Pass identities -/

theorem sub1_id {l : List Char} (h : ∀ c ∈ l, c.isUpper = false) :
    sub1 l = l := by
  revert h
  induction l using sub1.induct with
  | case1 => intro h; simp [sub1]
  | case2 c => intro h; simp [sub1]
  | case3 c d => intro h; simp [sub1]
  | case4 c d e rest hcond rest' ih =>
    intro h
    exfalso
    have hd := h d (by simp)
    rw [Bool.and_eq_true] at hcond
    rw [hd] at hcond
    exact absurd hcond.1 (by simp)
  | case5 c d e rest hcond ih =>
    intro h
    rw [sub1, if_neg hcond]
    rw [ih (fun x hx => h x (List.mem_cons_of_mem c hx))]

theorem sub2_id {l : List Char} (h : ∀ c ∈ l, c.isUpper = false) :
    sub2 l = l := by
  revert h
  induction l using sub2.induct with
  | case1 => intro h; simp [sub2]
  | case2 c => intro h; simp [sub2]
  | case3 c d rest hcond ih =>
    intro h
    exfalso
    have hd := h d (by simp)
    rw [Bool.and_eq_true] at hcond
    rw [hd] at hcond
    exact absurd hcond.2 (by simp)
  | case4 c d rest hcond ih =>
    intro h
    rw [sub2, if_neg hcond]
    rw [ih (fun x hx => h x (List.mem_cons_of_mem c hx))]

theorem sub3_id {l : List Char} (h : ∀ c ∈ l, isSnakeChar c = true) :
    l.map sub3Char = l := by
  have : ∀ c ∈ l, sub3Char c = c := by
    intro c hc
    have hs := h c hc
    unfold sub3Char
    rcases Bool.or_eq_true_iff.mp hs with h1 | h1
    · rcases Bool.or_eq_true_iff.mp h1 with h2 | h2
      · simp [h2]
      · simp [h2]
    · have : c = '_' := by simpa using h1
      subst this
      decide
  calc l.map sub3Char = l.map id := List.map_congr_left this
    _ = l := List.map_id l

theorem toLower_map_id {l : List Char} (h : ∀ c ∈ l, isSnakeChar c = true) :
    l.map Char.toLower = l := by
  calc l.map Char.toLower = l.map id :=
        List.map_congr_left (fun c hc => toLower_of_snake (h c hc))
    _ = l := List.map_id l

/-! ### Membership and classification through the passes -/

theorem mem_collapseU {c : Char} {l : List Char} (h : c ∈ collapseU l) :
    c ∈ l := by
  revert h
  induction l using collapseU.induct with
  | case1 => intro h; rw [collapseU] at h; exact h
  | case2 rest ih =>
    intro h
    rw [collapseU, if_pos rfl] at h
    rcases List.mem_cons.mp h with rfl | h1
    · simp
    · have hsub := (List.dropWhile_sublist (fun x => decide (x = '_'))
        (l := rest)).subset
      exact List.mem_cons_of_mem _ (hsub (ih h1))
  | case3 d rest hd ih =>
    intro h
    rw [collapseU, if_neg hd] at h
    rcases List.mem_cons.mp h with rfl | h1
    · simp
    · exact List.mem_cons_of_mem _ (ih h1)

theorem mem_stripU {c : Char} {l : List Char} (h : c ∈ stripU l) : c ∈ l := by
  unfold stripU at h
  rw [List.mem_reverse] at h
  have h2 := (List.dropWhile_sublist (fun x => decide (x = '_'))
    (l := (l.dropWhile (· = '_')).reverse)).subset h
  rw [List.mem_reverse] at h2
  exact (List.dropWhile_sublist (fun x => decide (x = '_')) (l := l)).subset h2

theorem snake_chars (n : String) :
    ∀ c ∈ (to_snake_case n).toList, isSnakeChar c = true := by
  intro c hc
  unfold to_snake_case at hc
  simp only [String.toList] at hc
  have h1 : c ∈ (collapseU ((sub2 (sub1 n.toList)).map sub3Char)).map Char.toLower :=
    mem_stripU hc
  rcases List.mem_map.mp h1 with ⟨d, hd, rfl⟩
  have h2 : d ∈ (sub2 (sub1 n.toList)).map sub3Char ∨ d = '_' := by
    by_cases hu : d = '_'
    · right; exact hu
    · left
      exact mem_collapseU hd
  apply snake_toLower
  rcases h2 with h3 | h3
  · rcases List.mem_map.mp h3 with ⟨e, he, rfl⟩
    unfold sub3Char
    split
    · rename_i he2
      rcases Bool.or_eq_true_iff.mp he2 with h4 | h4
      · rcases Bool.or_eq_true_iff.mp h4 with h5 | h5 <;> simp [h5]
      · simp [h4]
    · simp
  · subst h3
    decide

/-! ### Underscore runs: collapse and strip -/

theorem collapseU_head (l : List Char) : (collapseU l).head? = l.head? := by
  cases l with
  | nil => rw [collapseU]
  | cons c rest =>
    rw [collapseU]
    split
    · rename_i hc
      rw [hc]
      rfl
    · rfl

theorem collapseU_noadj (l : List Char) : NoAdjU (collapseU l) := by
  induction l using collapseU.induct with
  | case1 => rw [collapseU]; exact List.chain'_nil
  | case2 rest ih =>
    rw [collapseU, if_pos rfl]
    rw [NoAdjU, List.chain'_cons']
    refine ⟨?_, ih⟩
    intro y hy
    rw [collapseU_head] at hy
    have hnot := List.head?_dropWhile_not (fun x => decide (x = '_')) rest
    rw [hy] at hnot
    intro hcon
    rw [hcon.2] at hnot
    simp at hnot
  | case3 c rest hc ih =>
    rw [collapseU, if_neg hc]
    rw [NoAdjU, List.chain'_cons']
    refine ⟨?_, ih⟩
    intro y hy hcon
    exact hc hcon.1

theorem dropWhile_underscore_eq_self {l : List Char}
    (h : ∀ c, l.head? = some c → c ≠ '_') :
    l.dropWhile (· = '_') = l := by
  cases l with
  | nil => rfl
  | cons c rest =>
    rw [List.dropWhile_cons]
    have := h c rfl
    simp [this]

theorem collapseU_id {l : List Char} (h : NoAdjU l) : collapseU l = l := by
  revert h
  induction l using collapseU.induct with
  | case1 => intro h; rw [collapseU]
  | case2 rest ih =>
    intro h
    rw [NoAdjU, List.chain'_cons'] at h
    rcases h with ⟨hhead, htail⟩
    have hdrop : rest.dropWhile (· = '_') = rest := by
      apply dropWhile_underscore_eq_self
      intro c hc
      intro hcon
      exact hhead c hc ⟨rfl, hcon⟩
    rw [collapseU, if_pos rfl, hdrop]
    rw [hdrop] at ih
    rw [ih htail]
  | case3 c rest hc ih =>
    intro h
    rw [NoAdjU, List.chain'_cons'] at h
    rw [collapseU, if_neg hc, ih h.2]

theorem noadj_map_toLower {l : List Char} (h : NoAdjU l) :
    NoAdjU (l.map Char.toLower) := by
  apply List.chain'_map_of_chain' Char.toLower ?_ h
  intro a b hab hcon
  exact hab ⟨toLower_eq_underscore_iff.mp hcon.1,
    toLower_eq_underscore_iff.mp hcon.2⟩

theorem noadj_dropWhile {l : List Char} (p : Char → Bool) (h : NoAdjU l) :
    NoAdjU (l.dropWhile p) := by
  induction l with
  | nil => exact h
  | cons c rest ih =>
    rw [List.dropWhile_cons]
    split
    · rw [NoAdjU, List.chain'_cons'] at h
      exact ih h.2
    · exact h

theorem noadj_reverse {l : List Char} (h : NoAdjU l) : NoAdjU l.reverse := by
  rw [NoAdjU, List.chain'_reverse]
  apply List.Chain'.imp ?_ h
  intro a b hab hcon
  exact hab ⟨hcon.2, hcon.1⟩

theorem noadj_stripU {l : List Char} (h : NoAdjU l) : NoAdjU (stripU l) := by
  unfold stripU
  exact noadj_reverse (noadj_dropWhile _ (noadj_reverse (noadj_dropWhile _ h)))

theorem stripU_eq_self {l : List Char}
    (hh : ∀ c, l.head? = some c → c ≠ '_')
    (hl : ∀ c, l.getLast? = some c → c ≠ '_') :
    stripU l = l := by
  unfold stripU
  rw [dropWhile_underscore_eq_self hh]
  have : l.reverse.dropWhile (· = '_') = l.reverse := by
    apply dropWhile_underscore_eq_self
    intro c hc
    rw [List.head?_reverse] at hc
    exact hl c hc
  rw [this, List.reverse_reverse]

theorem stripU_idem (l : List Char) : stripU (stripU l) = stripU l := by
  apply stripU_eq_self
  · -- the head of a stripped list is not an underscore
    intro c hc
    unfold stripU at hc
    rw [List.head?_reverse] at hc
    -- getLast? of (dropWhile p w) where w := (l.dropWhile p).reverse
    rcases hr : ((l.dropWhile (· = '_')).reverse.dropWhile (· = '_')) with _ | ⟨d, ds⟩
    · rw [hr] at hc
      simp at hc
    · have hne : ((l.dropWhile (· = '_')).reverse.dropWhile (· = '_')) ≠ [] := by
        rw [hr]; simp
      have hsplit := List.takeWhile_append_dropWhile (fun x => decide (x = '_'))
        (l.dropWhile (· = '_')).reverse
      have hgl : ((l.dropWhile (· = '_')).reverse.dropWhile (· = '_')).getLast? =
          (l.dropWhile (· = '_')).reverse.getLast? := by
        conv_rhs => rw [← hsplit]
        rw [List.getLast?_append]
        rcases hgl2 : ((l.dropWhile (· = '_')).reverse.dropWhile (· = '_')).getLast? with _ | d2
        · exfalso
          rw [List.getLast?_eq_none_iff] at hgl2
          exact hne hgl2
        · rfl
      rw [hgl] at hc
      rw [List.getLast?_reverse] at hc
      have := List.head?_dropWhile_not (fun x => decide (x = '_')) l
      rw [hc] at this
      intro hcon
      rw [hcon] at this
      simp at this
  · intro c hc
    unfold stripU at hc
    rw [List.getLast?_reverse] at hc
    have := List.head?_dropWhile_not (fun x => decide (x = '_'))
      (l.dropWhile (· = '_')).reverse
    rw [hc] at this
    intro hcon
    rw [hcon] at this
    simp at this

/-- A string fixed by every pass of `to_snake_case` is fixed by it. -/
theorem to_snake_case_fix {y : String}
    (hclass : ∀ c ∈ y.toList, isSnakeChar c = true)
    (hnoadj : NoAdjU y.toList)
    (hstrip : stripU y.toList = y.toList) :
    to_snake_case y = y := by
  have hnoupper : ∀ c ∈ y.toList, c.isUpper = false :=
    fun c hc => not_upper_of_snake (hclass c hc)
  show String.mk (stripU (List.map Char.toLower (collapseU (List.map sub3Char
    (sub2 (sub1 y.toList)))))) = y
  rw [sub1_id hnoupper, sub2_id hnoupper, sub3_id hclass,
    collapseU_id hnoadj, toLower_map_id hclass, hstrip]
  cases y
  rfl

/-- `to_snake_case` is idempotent: its output contains only lowercase
letters, digits and single underscores, with no leading or trailing
underscore, and every pass fixes such a string. -/
theorem to_snake_case_idem (n : String) :
    to_snake_case (to_snake_case n) = to_snake_case n := by
  apply to_snake_case_fix
  · exact snake_chars n
  · show NoAdjU (stripU ((collapseU ((sub2 (sub1 n.toList)).map sub3Char)).map
      Char.toLower))
    exact noadj_stripU (noadj_map_toLower (collapseU_noadj _))
  · show stripU (stripU ((collapseU ((sub2 (sub1 n.toList)).map sub3Char)).map
      Char.toLower)) = stripU _
    exact stripU_idem _

/-! ## Claim C8 — intent keyword mapping -/

/-- C8 (counterexample): the claim says a question containing the
keyword `salesperson` maps to `rep_performance`.  It does not: the
sales keyword set is tested first and `"salesperson"` contains the
substring `"sales"`, so the question `"salesperson"` maps to
`sales_analysis`. -/
theorem determine_intent_salesperson_cex :
    determine_intent "salesperson" = "sales_analysis" ∧
      determine_intent "salesperson" ≠ "rep_performance" := by
  constructor
  · decide
  · decide

/-- C8 (amended): `determine_intent` tests the keyword sets
sequentially — sales, profit, rep, lead-source, vehicle — by substring
containment, so any question containing `salesperson` necessarily
contains `sales` and maps to `sales_analysis`, not `rep_performance`. -/
theorem determine_intent_salesperson (q : String)
    (h : strContains q "salesperson" = true) :
    determine_intent q = "sales_analysis" := by
  have hs : strContains q "sales" = true :=
    strContains_trans h (by decide)
  simp only [determine_intent, List.any_cons, hs, Bool.true_or, if_pos]

/-- C8 (witness): the amended theorem applied to a concrete question. -/
theorem determine_intent_salesperson_witness :
    determine_intent "best salesperson on the team" = "sales_analysis" :=
  determine_intent_salesperson "best salesperson on the team" (by decide)

/-! ## Claim C6 — lead-source ROI -/

/-- C6: in every record produced by `get_lead_source_roi`, the reported
`roi` equals `total_profit / total_expense × 100` when
`total_expense > 0` and is `0` otherwise — never infinity, never an
error (the function returns a value for every input reaching the ROI
computation). -/
theorem get_lead_source_roi_formula (t : Table) (l : List RoiRec)
    (r : RoiRec) (hl : get_lead_source_roi t = some l) (hr : r ∈ l) :
    r.roi = if 0 < r.total_expense
            then r.total_profit / r.total_expense * 100 else 0 := by
  unfold get_lead_source_roi at hl
  split at hl
  · rename_i sc pc ec hsc hpc hec
    split at hl
    · rename_i srcs profits expenses hstr hnum1 hnum2
      rw [Option.some_inj] at hl
      subst hl
      rw [mem_sortDescBy] at hr
      rcases List.mem_map.mp hr with ⟨k, hk, rfl⟩
      rfl
    · exact absurd hl (by simp)
  · rename_i hnone
    rw [Option.some_inj] at hl
    subst hl
    exact absurd hr (List.not_mem_nil r)

/-- C6 (witness): a lead source with `total_profit = 1000` and
`total_expense = 0` reports ROI `0`. -/
theorem get_lead_source_roi_formula_witness :
    get_lead_source_roi exRoi =
      some [{ name := "web", total_profit := 1000, total_expense := 0,
              sale_count := 1, roi := 0 }] ∧
    ({ name := "web", total_profit := 1000, total_expense := 0,
       sale_count := 1, roi := 0 } : RoiRec).roi =
      (if 0 < ({ name := "web", total_profit := 1000, total_expense := 0,
                 sale_count := 1, roi := 0 } : RoiRec).total_expense
       then 1000 / (0 : ℚ) * 100 else 0) := by
  constructor
  · with_unfolding_all decide
  · exact get_lead_source_roi_formula exRoi
      [{ name := "web", total_profit := 1000, total_expense := 0,
         sale_count := 1, roi := 0 }]
      { name := "web", total_profit := 1000, total_expense := 0,
        sale_count := 1, roi := 0 }
      (by with_unfolding_all decide) (by with_unfolding_all decide)

/-! ## Claim C5 — priceless tables -/

/-- C5 (counterexample): the claim says that for a table without a
price column every sales-dependent summary field is absent or null.  On
such a table `analyze_sales` stores the **number `0.0`**, not null, in
`total_sales` (and in `average_sale_price`): only the extreme-sale
entries are null. -/
theorem analyze_sales_summary_zero_cex :
    find_col exNoPrice ["sold_price", "selling_price", "sale_price"] = none ∧
    analyze_sales_summary exNoPrice =
      some [("total_sales", .num 0),
            ("average_sale_price", .num 0),
            ("highest_sale", .null),
            ("lowest_sale", .null)] ∧
    SVal.num 0 ≠ SVal.null := by
  refine ⟨by with_unfolding_all decide, by with_unfolding_all decide,
    by decide⟩

/-- C5 (amended): for every table with no column whose lowercased name
contains a price pattern (`sold_price`, `selling_price`, `sale_price`),
the sales summary is computed without raising: `total_sales` and
`average_sale_price` are the number `0.0` (not absent, not null) and
`highest_sale` and `lowest_sale` are null. -/
theorem analyze_sales_summary_no_price (t : Table)
    (h : find_col t ["sold_price", "selling_price", "sale_price"] = none) :
    analyze_sales_summary t =
      some [("total_sales", .num 0),
            ("average_sale_price", .num 0),
            ("highest_sale", .null),
            ("lowest_sale", .null)] := by
  unfold analyze_sales_summary get_total_sales get_average_sale_price
    get_highest_sale get_lowest_sale
  rw [h]

/-- C5 (witness): the amended theorem applied to a concrete priceless
table. -/
theorem analyze_sales_summary_no_price_witness :
    analyze_sales_summary exNoPrice =
      some [("total_sales", .num 0),
            ("average_sale_price", .num 0),
            ("highest_sale", .null),
            ("lowest_sale", .null)] :=
  analyze_sales_summary_no_price exNoPrice (by with_unfolding_all decide)

/-! ## Claim C10 — cleaning preserves table shape -/

theorem rows_clean_monetary_values (d : ColData) :
    (clean_monetary_values d).rows = d.rows := by
  cases d <;> simp [clean_monetary_values, ColData.rows]

theorem rows_to_numeric_coldata (d : ColData) :
    (to_numeric_coldata d).rows = d.rows := by
  cases d <;> simp [to_numeric_coldata, ColData.rows]

theorem rows_to_datetime_coerce (d : ColData) :
    (to_datetime_coerce d).rows = d.rows := by
  cases d <;> simp [to_datetime_coerce, ColData.rows]

theorem rows_to_datetime_year (d : ColData) :
    (to_datetime_year d).rows = d.rows := by
  cases d <;> simp [to_datetime_year, ColData.rows]

theorem rows_clean_dates (n : String) (d : ColData) :
    (clean_dates n d).rows = d.rows := by
  by_cases h1 : strContains (lowerStr n) "days_to_close"
  · simp [clean_dates, h1, rows_to_numeric_coldata]
  · by_cases h2 : strContains (lowerStr n) "vehicle_year"
    · simp [clean_dates, h1, h2, rows_to_datetime_year]
    · by_cases h3 : (strContains (lowerStr n) "sold_price" ||
        strContains (lowerStr n) "price") = true
      · simp [clean_dates, h1, h2, h3]
      · simp only [Bool.not_eq_true] at h3
        simp [clean_dates, h1, h2, h3, rows_to_datetime_coerce]

/-- Mapping a row-count-preserving column function preserves the row
counts of a table, positionally. -/
theorem map_rows_of_preserving (u : Table) (f : Col → Col)
    (h : ∀ c ∈ u, (f c).data.rows = c.data.rows) :
    ((u.map f).map fun c => c.data.rows) = u.map fun c => c.data.rows := by
  rw [List.map_map]
  exact List.map_congr_left (fun c hc => h c hc)

theorem map_rows_normalize (u : Table) :
    ((normalize_column_names u).map fun c => c.data.rows) =
      u.map fun c => c.data.rows :=
  map_rows_of_preserving u _ (fun _ _ => rfl)

theorem map_rows_monetary_pass (u : Table) :
    ((clean_data_monetary_pass u).map fun c => c.data.rows) =
      u.map fun c => c.data.rows :=
  map_rows_of_preserving u
    (fun c => if c.name ∈ identify_monetary_columns u
              then ⟨c.name, clean_monetary_values c.data⟩ else c)
    (fun c _ => by
      by_cases hmem : c.name ∈ identify_monetary_columns u
      · simp only [hmem, if_pos]
        exact rows_clean_monetary_values c.data
      · simp [hmem])

theorem map_rows_date_pass (u : Table) :
    ((clean_data_date_pass u).map fun c => c.data.rows) =
      u.map fun c => c.data.rows :=
  map_rows_of_preserving u
    (fun c => if c.name ∈ identify_date_columns u
              then ⟨c.name, clean_dates c.name c.data⟩ else c)
    (fun c _ => by
      by_cases hmem : c.name ∈ identify_date_columns u
      · simp only [hmem, if_pos]
        exact rows_clean_dates c.name c.data
      · simp [hmem])

theorem map_rows_handle_missing (u : Table) :
    ((handle_missing_values u).map fun c => c.data.rows) =
      u.map fun c => c.data.rows :=
  map_rows_of_preserving u _
    (fun c _ => by cases hc : c.data <;> simp [ColData.rows, hc])

/-- C10: cleaning preserves table shape — the cleaned table has the
same number of columns as the input, in the same order, and every
column keeps its row count; only column names and cell values change. -/
theorem clean_data_preserves_shape (t : Table) :
    (clean_data t).length = t.length ∧
    ((clean_data t).map fun c => c.data.rows) = t.map fun c => c.data.rows := by
  constructor
  · simp [clean_data, handle_missing_values, clean_data_date_pass,
      clean_data_monetary_pass, normalize_column_names]
  · calc ((clean_data t).map fun c => c.data.rows)
        = ((clean_data_date_pass (clean_data_monetary_pass
            (normalize_column_names t))).map fun c => c.data.rows) :=
          map_rows_handle_missing _
      _ = ((clean_data_monetary_pass
            (normalize_column_names t)).map fun c => c.data.rows) :=
          map_rows_date_pass _
      _ = ((normalize_column_names t).map fun c => c.data.rows) :=
          map_rows_monetary_pass _
      _ = t.map fun c => c.data.rows := map_rows_normalize _

/-! ## Claim C9 — monetary exclusion guard -/

theorem mon_candidate_false_of_excluded {c : Col}
    (hx : excluded_name c.name = true) : mon_candidate c = false := by
  by_cases hnum : is_numeric_dtype c.data
  · simp [mon_candidate, hnum]
  · simp [mon_candidate, hnum, hx]

/-- C9: a column whose (lowercased) name contains `name`, `rep`, `id`
or `number` is never identified as monetary — even if its name also
matches a monetary pattern or its values contain `$`/`,` — and the
monetary-cleaning pass of `clean_data` leaves it completely unchanged. -/
theorem excluded_never_monetary (t : Table) (j : ℕ)
    (h : j < t.length) (h2 : j < (clean_data_monetary_pass t).length)
    (hx : excluded_name (t.get ⟨j, h⟩).name = true) :
    (t.get ⟨j, h⟩).name ∉ identify_monetary_columns t ∧
    (clean_data_monetary_pass t).get ⟨j, h2⟩ = t.get ⟨j, h⟩ := by
  have hni : (t.get ⟨j, h⟩).name ∉ identify_monetary_columns t := by
    intro hmem
    unfold identify_monetary_columns at hmem
    rcases List.mem_map.mp hmem with ⟨c, hcmem, hcname⟩
    have hcand := (List.mem_filter.mp hcmem).2
    have hfalse := mon_candidate_false_of_excluded (c := c) (hcname ▸ hx)
    rw [hfalse] at hcand
    exact absurd hcand (by simp)
  refine ⟨hni, ?_⟩
  unfold clean_data_monetary_pass
  rw [List.get_eq_getElem, List.get_eq_getElem, List.getElem_map]
  simp only [hni, if_neg, ite_eq_right_iff]
  intro hmem
  exact absurd hmem hni

/-- C9 (witness): `rep_id` holds `$`-values but is excluded. -/
theorem excluded_never_monetary_witness :
    excluded_name "rep_id" = true ∧
    "rep_id" ∉ identify_monetary_columns exRepId ∧
    (clean_data_monetary_pass exRepId).get ⟨0, by with_unfolding_all decide⟩ =
      exRepId.get ⟨0, by with_unfolding_all decide⟩ := by
  have h := excluded_never_monetary exRepId 0
    (by with_unfolding_all decide) (by with_unfolding_all decide)
    (by with_unfolding_all decide)
  exact ⟨by decide, h.1, h.2⟩

/-! ## Claim C1 — no dash/slash guard in monetary cleaning -/

theorem slash_mem_dropWhile_space {l : List Char} (h : '/' ∈ l) :
    '/' ∈ l.dropWhile (· = ' ') := by
  have hsplit := List.takeWhile_append_dropWhile (fun c => decide (c = ' ')) l
  rw [← hsplit] at h
  rcases List.mem_append.mp h with h1 | h1
  · have := List.mem_takeWhile_imp h1
    simp at this
  · exact h1

theorem parseDecimalBody_slash {body : List Char} (h : '/' ∈ body) :
    parseDecimalBody body = none := by
  have hrest : '/' ∈ body.dropWhile Char.isDigit := by
    have hsplit := List.takeWhile_append_dropWhile Char.isDigit body
    rw [← hsplit] at h
    rcases List.mem_append.mp h with h1 | h1
    · have := List.mem_takeWhile_imp h1
      exact absurd this (by decide)
    · exact h1
  rcases hr : body.dropWhile Char.isDigit with _ | ⟨c, cs⟩
  · rw [hr] at hrest
    exact absurd hrest (List.not_mem_nil _)
  · rw [hr] at hrest
    simp only [parseDecimalBody, hr]
    by_cases hc : c = '.'
    · subst hc
      rcases List.mem_cons.mp hrest with h1 | h1
      · exact absurd h1 (by decide)
      · have hall : cs.all Char.isDigit = false :=
          List.all_eq_false.mpr ⟨'/', h1, by decide⟩
        simp [hall]
    · simp [hc]

theorem toNumericQ_slash {s : String} (h : '/' ∈ s.toList) :
    toNumericQ s = none := by
  have h1 : '/' ∈ ((s.toList.dropWhile (· = ' ')).reverse.dropWhile
      (· = ' ')).reverse := by
    rw [List.mem_reverse]
    apply slash_mem_dropWhile_space
    rw [List.mem_reverse]
    exact slash_mem_dropWhile_space h
  simp only [toNumericQ]
  split
  · rfl
  · rename_i c body heq
    rw [heq] at h1
    by_cases hneg : c = '-'
    · subst hneg
      rcases List.mem_cons.mp h1 with h2 | h2
      · exact absurd h2 (by decide)
      · simp [parseDecimalBody_slash h2]
    · by_cases hpos : c = '+'
      · subst hpos
        rcases List.mem_cons.mp h1 with h2 | h2
        · exact absurd h2 (by decide)
        · simp [hneg, parseDecimalBody_slash h2]
      · simp [hneg, hpos, parseDecimalBody_slash h1]

/-- C1 (counterexample): the claim says that a monetary-classified
column with a cell still containing a dash or slash after
symbol-stripping is returned unchanged from its raw values.  The code
has no such guard: the `amount` column of `exMonDate` is classified
monetary, its cell `"01/02/2023"` still contains slashes after
stripping, yet cleaning coerces the column to numeric — the date cell
becomes NaN and is then filled to `0.0`, precisely the corruption the
claim says is prevented. -/
theorem clean_monetary_no_guard_cex :
    identify_monetary_columns exMonDate = ["amount"] ∧
    strContains (strip_dollar_comma "01/02/2023") "/" = true ∧
    clean_monetary_values (ColData.strCol [some "01/02/2023", some "$5"]) ≠
      ColData.strCol [some "01/02/2023", some "$5"] ∧
    clean_data exMonDate = [⟨"amount", .numCol [some 0, some 5]⟩] := by
  refine ⟨by decide, by decide, by with_unfolding_all decide,
    by with_unfolding_all decide⟩

/-- C1 (amended): monetary normalization never returns an identified
column unchanged: the monetary pass always replaces it by the
strip-and-coerce result, and any cell still containing a slash after
symbol-stripping fails numeric parsing and becomes missing (NaN, later
filled to 0), rather than the column being kept raw.  (A dash parses
only as a leading sign; interior dashes likewise fail.) -/
theorem clean_monetary_no_guard (t : Table) (j : ℕ)
    (h : j < t.length) (h2 : j < (clean_data_monetary_pass t).length)
    (hm : (t.get ⟨j, h⟩).name ∈ identify_monetary_columns t)
    (cs : List (Option String)) (hcs : (t.get ⟨j, h⟩).data = .strCol cs) :
    (clean_data_monetary_pass t).get ⟨j, h2⟩ =
      ⟨(t.get ⟨j, h⟩).name,
        .numCol (cs.map (fun oc =>
          oc.bind (fun s => toNumericQ (strip_dollar_comma s))))⟩ ∧
    ∀ s : String, some s ∈ cs →
      strContains (strip_dollar_comma s) "/" = true →
        toNumericQ (strip_dollar_comma s) = none := by
  constructor
  · unfold clean_data_monetary_pass
    rw [List.get_eq_getElem, List.getElem_map]
    rw [List.get_eq_getElem] at hm
    simp only [hm, if_pos]
    rw [show (t[j]).data = ColData.strCol cs from hcs]
    rfl
  · intro s _ hslash
    apply toNumericQ_slash
    have hinf := of_decide_eq_true hslash
    exact hinf.subset (by decide)

/-- C1 (witness): the amended theorem applied to the concrete table. -/
theorem clean_monetary_no_guard_witness :
    (clean_data_monetary_pass exMonDate).get ⟨0, by with_unfolding_all decide⟩ =
      ⟨"amount", .numCol [none, some 5]⟩ ∧
    toNumericQ (strip_dollar_comma "01/02/2023") = none := by
  have h := clean_monetary_no_guard exMonDate 0
    (by with_unfolding_all decide) (by with_unfolding_all decide)
    (by with_unfolding_all decide)
    [some "01/02/2023", some "$5"] (by decide)
  refine ⟨?_, h.2 "01/02/2023" (by decide) (by decide)⟩
  rw [h.1]
  with_unfolding_all decide

/-! ## Claim C4 — days_to_close stays numeric -/

theorem clean_data_monetary_pass_eq (u : Table) :
    clean_data_monetary_pass u = u.map (mon_step u) := rfl

theorem clean_data_date_pass_eq (u : Table) :
    clean_data_date_pass u = u.map (date_step u) := rfl

theorem handle_missing_values_eq (u : Table) :
    handle_missing_values u = u.map fill_col := rfl

/-- Column `j` of the cleaned table is the composite of the per-column
steps applied to column `j` of the name-normalized table. -/
theorem clean_data_getElem (t : Table) (j : ℕ)
    (h : j < (normalize_column_names t).length)
    (h2 : j < (clean_data t).length) :
    (clean_data t)[j] =
      fill_col
        (date_step (clean_data_monetary_pass (normalize_column_names t))
          (mon_step (normalize_column_names t)
            ((normalize_column_names t)[j]))) := by
  show (handle_missing_values (clean_data_date_pass
    (clean_data_monetary_pass (normalize_column_names t))))[j] = _
  simp only [handle_missing_values_eq, clean_data_date_pass_eq,
    clean_data_monetary_pass_eq, List.getElem_map]

theorem strip_dollar_comma_digits {s : String}
    (h : s.toList.all Char.isDigit = true) : strip_dollar_comma s = s := by
  unfold strip_dollar_comma
  rw [List.all_eq_true] at h
  have : s.toList.filter (fun ch => !(ch = '$' || ch = ',')) = s.toList := by
    apply List.filter_eq_self.mpr
    intro a ha
    have hd := h a ha
    have h1 : a ≠ '$' := fun he => by subst he; exact absurd hd (by decide)
    have h2 : a ≠ ',' := fun he => by subst he; exact absurd hd (by decide)
    simp [h1, h2]
  rw [this]
  cases s
  rfl

theorem digits_dropWhile_space {l : List Char}
    (h : l.all Char.isDigit = true) : l.dropWhile (· = ' ') = l := by
  cases l with
  | nil => rfl
  | cons c cs =>
    rw [List.all_cons] at h
    have hc : c.isDigit = true := (Bool.and_eq_true_iff.mp h).1
    have : c ≠ ' ' := fun he => by subst he; exact absurd hc (by decide)
    rw [List.dropWhile_cons]
    simp [this]

theorem toNumericQ_digits {s : String} (hne : s.toList ≠ [])
    (h : s.toList.all Char.isDigit = true) :
    toNumericQ s = some (digitsToNat s.toList) := by
  have hrev : s.toList.reverse.all Char.isDigit = true := by
    rw [List.all_reverse]
    exact h
  have htrim : ((s.toList.dropWhile (· = ' ')).reverse.dropWhile
      (· = ' ')).reverse = s.toList := by
    rw [digits_dropWhile_space h, digits_dropWhile_space hrev,
      List.reverse_reverse]
  unfold toNumericQ
  rw [htrim]
  rcases hl : s.toList with _ | ⟨c, body⟩
  · exact absurd hl hne
  · rw [hl] at h
    rw [List.all_cons] at h
    rcases Bool.and_eq_true_iff.mp h with ⟨hc, hbody⟩
    have hneg : c ≠ '-' := fun he => by subst he; exact absurd hc (by decide)
    have hpos : c ≠ '+' := fun he => by subst he; exact absurd hc (by decide)
    dsimp only
    rw [if_neg hneg, if_neg hpos]
    unfold parseDecimalBody
    have hdrop : (c :: body).dropWhile Char.isDigit = [] := by
      rw [List.dropWhile_eq_nil_iff]
      intro x hx
      rcases List.mem_cons.mp hx with rfl | hx'
      · exact hc
      · exact List.all_eq_true.mp hbody x hx'
    have htake : (c :: body).takeWhile Char.isDigit = c :: body := by
      have := List.takeWhile_append_dropWhile Char.isDigit (c :: body)
      rw [hdrop, List.append_nil] at this
      exact this
    rw [hdrop, htake]
    simp

theorem date_name_match_of_days {n : String}
    (h : strContains (lowerStr n) "days_to_close" = true) :
    date_name_match n = true := by
  unfold date_name_match
  rw [List.any_eq_true]
  exact ⟨"day", by decide, strContains_trans h (by decide)⟩

/-- C4: a column whose normalized name contains `days_to_close` and
whose cells are (nonempty) digit strings is coerced to plain numeric
values by cleaning and never date-parsed, even though the name contains
`day`/`close` and so matches the date-name pattern: `clean_dates`
special-cases `days_to_close` to `pd.to_numeric`. -/
theorem days_to_close_stays_numeric (t : Table) (j : ℕ)
    (h : j < (normalize_column_names t).length)
    (h2 : j < (clean_data t).length)
    (hname : strContains
      (lowerStr ((normalize_column_names t).get ⟨j, h⟩).name)
      "days_to_close" = true)
    (cs : List (Option String))
    (hcs : ((normalize_column_names t).get ⟨j, h⟩).data = .strCol cs)
    (hnum : ∀ oc ∈ cs, ∃ s : String, oc = some s ∧
      s.toList ≠ [] ∧ s.toList.all Char.isDigit = true) :
    (clean_data t).get ⟨j, h2⟩ =
      ⟨((normalize_column_names t).get ⟨j, h⟩).name,
        .numCol (cs.map (fun oc => oc.bind toNumericQ))⟩ := by
  rw [List.get_eq_getElem] at hname hcs ⊢
  rw [clean_data_getElem t j h h2]
  have hdnm : date_name_match ((normalize_column_names t)[j]).name = true :=
    date_name_match_of_days hname
  -- the per-cell coercions agree on digit-string cells
  have hcells : ∀ oc ∈ cs,
      oc.bind (fun s => toNumericQ (strip_dollar_comma s)) =
        oc.bind toNumericQ := by
    intro oc hoc
    rcases hnum oc hoc with ⟨s, rfl, hne, hdig⟩
    simp [strip_dollar_comma_digits hdig]
  have hsome : ∀ oc ∈ cs, (oc.bind toNumericQ).isSome = true := by
    intro oc hoc
    rcases hnum oc hoc with ⟨s, rfl, hne, hdig⟩
    simp [toNumericQ_digits hne hdig]
  by_cases hmon : ((normalize_column_names t)[j]).name ∈
      identify_monetary_columns (normalize_column_names t)
  · -- monetary pass already coerced; date step is then the identity
    -- coercion, and the fill pass keeps the parsed values
    have hc1 : mon_step (normalize_column_names t)
        ((normalize_column_names t)[j]) =
        ⟨((normalize_column_names t)[j]).name,
          .numCol (cs.map (fun oc => oc.bind toNumericQ))⟩ := by
      rw [mon_step, if_pos hmon, hcs]
      simp only [clean_monetary_values]
      rw [List.map_congr_left hcells]
    rw [hc1]
    have hdate : ((normalize_column_names t)[j]).name ∈
        identify_date_columns
          (clean_data_monetary_pass (normalize_column_names t)) := by
      unfold identify_date_columns
      apply List.mem_map.mpr
      refine ⟨⟨((normalize_column_names t)[j]).name,
        .numCol (cs.map (fun oc => oc.bind toNumericQ))⟩, ?_, rfl⟩
      apply List.mem_filter.mpr
      constructor
      · rw [clean_data_monetary_pass_eq]
        rw [← hc1]
        exact List.mem_map_of_mem _ (List.getElem_mem _)
      · simp [date_candidate, hdnm]
    rw [date_step, if_pos hdate]
    simp only [clean_dates, hname, if_pos, to_numeric_coldata]
    rw [fill_col]
    simp only []
    congr 1
    rw [List.map_map]
    congr 1
    apply List.map_congr_left
    intro oc hoc
    rcases hnum oc hoc with ⟨s, rfl, hne, hdig⟩
    simp [toNumericQ_digits hne hdig]
  · -- not monetary: the date step itself runs `pd.to_numeric`
    have hc1 : mon_step (normalize_column_names t)
        ((normalize_column_names t)[j]) =
        (normalize_column_names t)[j] := by
      rw [mon_step, if_neg hmon]
    rw [hc1]
    have hdate : ((normalize_column_names t)[j]).name ∈
        identify_date_columns
          (clean_data_monetary_pass (normalize_column_names t)) := by
      unfold identify_date_columns
      apply List.mem_map.mpr
      refine ⟨(normalize_column_names t)[j], ?_, rfl⟩
      apply List.mem_filter.mpr
      constructor
      · rw [clean_data_monetary_pass_eq]
        rw [← hc1]
        exact List.mem_map_of_mem _ (List.getElem_mem _)
      · simp [date_candidate, hdnm]
    rw [date_step, if_pos hdate]
    simp only [clean_dates, hname, if_pos]
    rw [hcs]
    simp only [to_numeric_coldata]
    rw [fill_col]
    simp only []
    congr 1
    rw [List.map_map]
    congr 1
    apply List.map_congr_left
    intro oc hoc
    rcases hnum oc hoc with ⟨s, rfl, hne, hdig⟩
    simp [toNumericQ_digits hne hdig]

/-- C4 (witness): `Days To Close` with cells `"12"`, `"30"`. -/
theorem days_to_close_stays_numeric_witness :
    (clean_data exDays).get ⟨0, by with_unfolding_all decide⟩ =
      ⟨"days_to_close", .numCol [some 12, some 30]⟩ := by
  have h := days_to_close_stays_numeric exDays 0
    (by decide) (by with_unfolding_all decide)
    (by with_unfolding_all decide) [some "12", some "30"]
    (by with_unfolding_all decide) (by with_unfolding_all decide)
  rw [h]
  with_unfolding_all decide

/-! ### C7 scaffolding: passes as per-column maps on Nodup tables -/

theorem names_map_of_preserving (u : Table) (f : Col → Col)
    (h : ∀ c ∈ u, (f c).name = c.name) :
    (u.map f).map Col.name = u.map Col.name := by
  rw [List.map_map]
  exact List.map_congr_left (fun c hc => h c hc)

theorem name_mon_step_cand (c : Col) : (mon_step_cand c).name = c.name := by
  rw [mon_step_cand]
  split <;> rfl

theorem name_date_step_cand (c : Col) : (date_step_cand c).name = c.name := by
  rw [date_step_cand]
  split <;> rfl

theorem name_fill_col (c : Col) : (fill_col c).name = c.name := rfl

theorem name_clean_col (c : Col) : (clean_col c).name = c.name := by
  rw [clean_col, name_fill_col, name_date_step_cand, name_mon_step_cand]

theorem mem_identify_mon {u : Table} (hnd : (u.map Col.name).Nodup)
    {c : Col} (hc : c ∈ u) :
    c.name ∈ identify_monetary_columns u ↔ mon_candidate c = true := by
  constructor
  · intro h
    unfold identify_monetary_columns at h
    rcases List.mem_map.mp h with ⟨c', hc', hname⟩
    rcases List.mem_filter.mp hc' with ⟨hcu, hcand⟩
    have : c' = c := List.inj_on_of_nodup_map hnd hcu hc hname
    rwa [← this]
  · intro h
    unfold identify_monetary_columns
    exact List.mem_map_of_mem _ (List.mem_filter.mpr ⟨hc, h⟩)

theorem mem_identify_date {u : Table} (hnd : (u.map Col.name).Nodup)
    {c : Col} (hc : c ∈ u) :
    c.name ∈ identify_date_columns u ↔ date_candidate c = true := by
  constructor
  · intro h
    unfold identify_date_columns at h
    rcases List.mem_map.mp h with ⟨c', hc', hname⟩
    rcases List.mem_filter.mp hc' with ⟨hcu, hcand⟩
    have : c' = c := List.inj_on_of_nodup_map hnd hcu hc hname
    rwa [← this]
  · intro h
    unfold identify_date_columns
    exact List.mem_map_of_mem _ (List.mem_filter.mpr ⟨hc, h⟩)

theorem mon_pass_map {u : Table} (hnd : (u.map Col.name).Nodup) :
    clean_data_monetary_pass u = u.map mon_step_cand := by
  rw [clean_data_monetary_pass_eq]
  apply List.map_congr_left
  intro c hc
  rw [mon_step, mon_step_cand]
  by_cases hb : mon_candidate c = true
  · rw [if_pos ((mem_identify_mon hnd hc).mpr hb), if_pos hb]
  · rw [if_neg (fun hmem => hb ((mem_identify_mon hnd hc).mp hmem)),
      if_neg hb]

theorem date_pass_map {u : Table} (hnd : (u.map Col.name).Nodup) :
    clean_data_date_pass u = u.map date_step_cand := by
  rw [clean_data_date_pass_eq]
  apply List.map_congr_left
  intro c hc
  rw [date_step, date_step_cand]
  by_cases hb : date_candidate c = true
  · rw [if_pos ((mem_identify_date hnd hc).mpr hb), if_pos hb]
  · rw [if_neg (fun hmem => hb ((mem_identify_date hnd hc).mp hmem)),
      if_neg hb]

/-- On a table with distinct (normalized) column names, `clean_data`
acts columnwise. -/
theorem clean_data_map (t : Table)
    (hnd : ((normalize_column_names t).map Col.name).Nodup) :
    clean_data t = (normalize_column_names t).map clean_col := by
  have h1 : clean_data_monetary_pass (normalize_column_names t) =
      (normalize_column_names t).map mon_step_cand := mon_pass_map hnd
  have hnd2 : ((clean_data_monetary_pass
      (normalize_column_names t)).map Col.name).Nodup := by
    rw [h1, names_map_of_preserving _ _ (fun c _ => name_mon_step_cand c)]
    exact hnd
  show handle_missing_values (clean_data_date_pass
    (clean_data_monetary_pass (normalize_column_names t))) = _
  rw [date_pass_map hnd2, h1, handle_missing_values_eq,
    List.map_map, List.map_map]
  rfl

theorem clean_data_names (t : Table) :
    (clean_data t).map Col.name =
      (normalize_column_names t).map Col.name := by
  show (handle_missing_values (clean_data_date_pass
    (clean_data_monetary_pass (normalize_column_names t)))).map Col.name = _
  rw [handle_missing_values_eq,
    names_map_of_preserving _ _ (fun c _ => name_fill_col c),
    clean_data_date_pass_eq]
  rw [names_map_of_preserving _ _ (fun c _ => by
    rw [date_step]; split <;> rfl)]
  rw [clean_data_monetary_pass_eq]
  rw [names_map_of_preserving _ _ (fun c _ => by
    rw [mon_step]; split <;> rfl)]

/-- Cleaning leaves the table's names in normalized form, so a second
name-normalization is the identity. -/
theorem normalize_clean (t : Table) :
    normalize_column_names (clean_data t) = clean_data t := by
  have hnames : ∀ c ∈ clean_data t, to_snake_case c.name = c.name := by
    intro c hc
    have h1 : c.name ∈ (clean_data t).map Col.name :=
      List.mem_map_of_mem _ hc
    rw [clean_data_names] at h1
    unfold normalize_column_names at h1
    rw [List.map_map] at h1
    rcases List.mem_map.mp h1 with ⟨c0, hc0, heq⟩
    simp only [Function.comp] at heq
    rw [← heq]
    exact to_snake_case_idem c0.name
  unfold normalize_column_names
  calc (clean_data t).map (fun c => ⟨to_snake_case c.name, c.data⟩)
      = (clean_data t).map id :=
        List.map_congr_left (fun c hc => by rw [hnames c hc]; rfl)
    _ = clean_data t := List.map_id _

/-! ### Per-column idempotence -/

theorem clean_dates_days {n : String} (d : ColData)
    (h : strContains (lowerStr n) "days_to_close" = true) :
    clean_dates n d = to_numeric_coldata d := by
  rw [clean_dates]
  simp only [h, if_pos]

theorem clean_dates_vyear {n : String} (d : ColData)
    (h1 : strContains (lowerStr n) "days_to_close" = false)
    (h2 : strContains (lowerStr n) "vehicle_year" = true) :
    clean_dates n d = to_datetime_year d := by
  rw [clean_dates]
  simp only [h1, h2, if_pos, Bool.false_eq_true, if_false]

theorem clean_dates_price {n : String} (d : ColData)
    (h1 : strContains (lowerStr n) "days_to_close" = false)
    (h2 : strContains (lowerStr n) "vehicle_year" = false)
    (h3 : (strContains (lowerStr n) "sold_price" ||
      strContains (lowerStr n) "price") = true) :
    clean_dates n d = d := by
  rw [clean_dates]
  simp only [h1, h2, h3, if_pos, Bool.false_eq_true, if_false]

theorem clean_dates_general {n : String} (d : ColData)
    (h1 : strContains (lowerStr n) "days_to_close" = false)
    (h2 : strContains (lowerStr n) "vehicle_year" = false)
    (h3 : (strContains (lowerStr n) "sold_price" ||
      strContains (lowerStr n) "price") = false) :
    clean_dates n d = to_datetime_coerce d := by
  rw [clean_dates]
  simp only [h1, h2, h3, Bool.false_eq_true, if_false]

theorem mon_candidate_numCol (n : String) (cs : List (Option ℚ)) :
    mon_candidate ⟨n, .numCol cs⟩ = false := by
  rw [mon_candidate]
  simp [is_numeric_dtype]

theorem date_candidate_numCol (n : String) (cs : List (Option ℚ)) :
    date_candidate ⟨n, .numCol cs⟩ = date_name_match n := by
  rw [date_candidate]
  by_cases h : date_name_match n = true
  · simp [h]
  · rw [Bool.not_eq_true] at h
    simp [h]

theorem date_candidate_dateCol (n : String) (cs : List (Option ℤ)) :
    date_candidate ⟨n, .dateCol cs⟩ = date_name_match n := by
  rw [date_candidate]
  by_cases h : date_name_match n = true
  · simp [h]
  · rw [Bool.not_eq_true] at h
    simp [h]

theorem fill_num_idem (cs : List (Option ℚ)) :
    (cs.map (fun oq => some (oq.getD 0))).map (fun oq => some (oq.getD 0)) =
      cs.map (fun oq => some (oq.getD 0)) := by
  rw [List.map_map]
  apply List.map_congr_left
  intro oq _
  simp

theorem fill_str_id {cs : List (Option String)}
    (hs : ∀ oc ∈ cs, oc.isSome = true) :
    cs.map (fun oc => some (oc.getD "")) = cs := by
  calc cs.map (fun oc => some (oc.getD "")) = cs.map id := by
        apply List.map_congr_left
        intro oc hoc
        rcases Option.isSome_iff_exists.mp (hs oc hoc) with ⟨x, rfl⟩
        rfl
    _ = cs := List.map_id cs

/-- The per-column cleaning action is idempotent on a column that is
already clean: not a monetary candidate, canonical if date-identified,
and without missing text cells. -/
theorem clean_col_idem (c : Col)
    (hm : mon_candidate c = false)
    (hd : date_candidate c = true → date_branch_ok c = true)
    (hs : str_no_missing c = true) :
    clean_col (clean_col c) = clean_col c := by
  obtain ⟨n, d⟩ := c
  have hmon : mon_step_cand ⟨n, d⟩ = ⟨n, d⟩ := by
    rw [mon_step_cand, if_neg (by simp [hm])]
  simp only [clean_col]
  rw [hmon]
  cases d with
  | strCol cs =>
    have hall : ∀ oc ∈ cs, oc.isSome = true := by
      simp only [str_no_missing, List.all_eq_true] at hs
      exact hs
    have hfill : fill_col ⟨n, .strCol cs⟩ = ⟨n, .strCol cs⟩ := by
      rw [fill_col]
      simp only []
      rw [fill_str_id hall]
    by_cases hcand : date_candidate ⟨n, .strCol cs⟩ = true
    · have hok := hd hcand
      by_cases hdays : strContains (lowerStr n) "days_to_close" = true
      · rw [date_branch_ok] at hok
        simp only [hdays, if_pos] at hok
        simp [is_numeric_dtype] at hok
      · rw [Bool.not_eq_true] at hdays
        by_cases hvy : strContains (lowerStr n) "vehicle_year" = true
        · rw [date_branch_ok] at hok
          simp only [hdays, hvy, if_pos, Bool.false_eq_true, if_false] at hok
          simp [is_datetime_dtype] at hok
        · rw [Bool.not_eq_true] at hvy
          by_cases hpr : (strContains (lowerStr n) "sold_price" ||
              strContains (lowerStr n) "price") = true
          · have hds : date_step_cand ⟨n, .strCol cs⟩ = ⟨n, .strCol cs⟩ := by
              rw [date_step_cand, if_pos hcand,
                clean_dates_price _ hdays hvy hpr]
            rw [hds, hfill, hmon, hds, hfill]
          · rw [Bool.not_eq_true] at hpr
            rw [date_branch_ok] at hok
            simp only [hdays, hvy, hpr, Bool.false_eq_true, if_false] at hok
            simp [is_datetime_dtype] at hok
    · have hds : date_step_cand ⟨n, .strCol cs⟩ = ⟨n, .strCol cs⟩ := by
        rw [date_step_cand, if_neg hcand]
      rw [hds, hfill, hmon, hds, hfill]
  | dateCol cs =>
    have hfill : fill_col ⟨n, .dateCol cs⟩ = ⟨n, .dateCol cs⟩ := rfl
    by_cases hcand : date_candidate ⟨n, .dateCol cs⟩ = true
    · have hok := hd hcand
      have hds : date_step_cand ⟨n, .dateCol cs⟩ = ⟨n, .dateCol cs⟩ := by
        rw [date_step_cand, if_pos hcand]
        by_cases hdays : strContains (lowerStr n) "days_to_close" = true
        · rw [date_branch_ok] at hok
          simp only [hdays, if_pos] at hok
          simp [is_numeric_dtype] at hok
        · rw [Bool.not_eq_true] at hdays
          by_cases hvy : strContains (lowerStr n) "vehicle_year" = true
          · rw [clean_dates_vyear _ hdays hvy]
            rfl
          · rw [Bool.not_eq_true] at hvy
            by_cases hpr : (strContains (lowerStr n) "sold_price" ||
                strContains (lowerStr n) "price") = true
            · rw [clean_dates_price _ hdays hvy hpr]
            · rw [Bool.not_eq_true] at hpr
              rw [clean_dates_general _ hdays hvy hpr]
              rfl
      rw [hds, hfill, hmon, hds, hfill]
    · have hds : date_step_cand ⟨n, .dateCol cs⟩ = ⟨n, .dateCol cs⟩ := by
        rw [date_step_cand, if_neg hcand]
      rw [hds, hfill, hmon, hds, hfill]
  | numCol cs =>
    have hfill : fill_col ⟨n, .numCol cs⟩ =
        ⟨n, .numCol (cs.map (fun oq => some (oq.getD 0)))⟩ := rfl
    have hmon2 : ∀ cs2 : List (Option ℚ),
        mon_step_cand ⟨n, .numCol cs2⟩ = ⟨n, .numCol cs2⟩ := by
      intro cs2
      rw [mon_step_cand, if_neg (by simp [mon_candidate_numCol])]
    have hfill2 : ∀ cs2 : List (Option ℚ),
        fill_col ⟨n, .numCol (cs2.map (fun oq => some (oq.getD 0)))⟩ =
          ⟨n, .numCol (cs2.map (fun oq => some (oq.getD 0)))⟩ := by
      intro cs2
      rw [fill_col]
      simp only []
      rw [fill_num_idem]
    by_cases hcand : date_candidate ⟨n, .numCol cs⟩ = true
    · have hok := hd hcand
      have hnm : date_name_match n = true := by
        rw [date_candidate_numCol] at hcand
        exact hcand
      by_cases hdays : strContains (lowerStr n) "days_to_close" = true
      · -- days_to_close: to_numeric is the identity on a float column
        have hds : ∀ cs2 : List (Option ℚ),
            date_step_cand ⟨n, .numCol cs2⟩ = ⟨n, .numCol cs2⟩ := by
          intro cs2
          rw [date_step_cand,
            if_pos (by rw [date_candidate_numCol]; exact hnm),
            clean_dates_days _ hdays]
          rfl
        rw [hds, hfill, hmon2, hds, hfill2]
      · rw [Bool.not_eq_true] at hdays
        by_cases hvy : strContains (lowerStr n) "vehicle_year" = true
        · rw [date_branch_ok] at hok
          simp only [hdays, hvy, if_pos, Bool.false_eq_true, if_false] at hok
          simp [is_datetime_dtype] at hok
        · rw [Bool.not_eq_true] at hvy
          by_cases hpr : (strContains (lowerStr n) "sold_price" ||
              strContains (lowerStr n) "price") = true
          · have hds : ∀ cs2 : List (Option ℚ),
                date_step_cand ⟨n, .numCol cs2⟩ = ⟨n, .numCol cs2⟩ := by
              intro cs2
              rw [date_step_cand,
                if_pos (by rw [date_candidate_numCol]; exact hnm),
                clean_dates_price _ hdays hvy hpr]
            rw [hds, hfill, hmon2, hds, hfill2]
          · rw [Bool.not_eq_true] at hpr
            rw [date_branch_ok] at hok
            simp only [hdays, hvy, hpr, Bool.false_eq_true, if_false] at hok
            simp [is_datetime_dtype] at hok
    · have hcf : date_name_match n = false := by
        rw [date_candidate_numCol] at hcand
        rw [Bool.not_eq_true] at hcand
        exact hcand
      have hds : ∀ cs2 : List (Option ℚ),
          date_step_cand ⟨n, .numCol cs2⟩ = ⟨n, .numCol cs2⟩ := by
        intro cs2
        rw [date_step_cand, if_neg (by rw [date_candidate_numCol, hcf]; simp)]
      rw [hds, hfill, hmon2, hds, hfill2]

/-! ## Claim C2 — ranking tie order -/

/-- C2 (counterexample): the claim says groups with equal
`total_profit` keep their first-occurrence order.  In `exTie` the rep
column is `["zed", "amy"]` — `zed` occurs first — and both reps have
total profit 10, yet `get_profit_by_rep` lists `amy` first:
`df.groupby` sorts the group keys alphabetically and the stable
descending sort preserves that order on ties, not first occurrence. -/
theorem get_profit_by_rep_tie_cex :
    get_profit_by_rep exTie = some
      [{ name := "amy", sale_count := 1, total_profit := 10,
         average_profit := some 10 },
       { name := "zed", sale_count := 1, total_profit := 10,
         average_profit := some 10 }] ∧
    exTie.get ⟨0, by decide⟩ =
      ⟨"sales_rep", .strCol [some "zed", some "amy"]⟩ := by
  refine ⟨by with_unfolding_all decide, by decide⟩

/-- C2 (amended): in `get_profit_by_rep`, two groups with equal
`total_profit` appear in ascending alphabetical order of their group
key — the order `df.groupby` yields and the Python stable sort
preserves — not in first-occurrence order. -/
theorem get_profit_by_rep_tie_order (t : Table) (l : List RepRec)
    (hl : get_profit_by_rep t = some l)
    (i j : ℕ) (hi : i < l.length) (hj : j < l.length) (hij : i < j)
    (heq : (l.get ⟨i, hi⟩).total_profit = (l.get ⟨j, hj⟩).total_profit) :
    strLt (l.get ⟨i, hi⟩).name (l.get ⟨j, hj⟩).name = true := by
  have hp : l.Pairwise (fun a b => b.total_profit < a.total_profit ∨
      (a.total_profit = b.total_profit ∧ strLt a.name b.name = true)) := by
    unfold get_profit_by_rep at hl
    split at hl
    · rename_i repc profc hrep hprof
      split at hl
      · rename_i reps profits hstr hnum
        rw [Option.some_inj] at hl
        subst hl
        apply sortDescBy_pairwise (f := RepRec.total_profit)
          (S := fun a b => strLt a.name b.name = true)
        have hkeys := sorted_unique_pairwise (reps.filterMap id)
        exact List.Pairwise.map _ (fun a b hab => hab) hkeys
      · exact absurd hl (by simp)
    · rw [Option.some_inj] at hl
      subst hl
      exact List.Pairwise.nil
  have := List.pairwise_iff_getElem.mp hp i j hi hj hij
  rw [List.get_eq_getElem, List.get_eq_getElem] at heq ⊢
  rcases this with h1 | h1
  · rw [heq] at h1
    exact absurd h1 (lt_irrefl _)
  · exact h1.2

/-- C2 (witness): the amended theorem at the concrete tie. -/
theorem get_profit_by_rep_tie_order_witness :
    strLt "amy" "zed" = true := by
  have h := get_profit_by_rep_tie_order exTie
    [{ name := "amy", sale_count := 1, total_profit := 10,
       average_profit := some 10 },
     { name := "zed", sale_count := 1, total_profit := 10,
       average_profit := some 10 }]
    (by with_unfolding_all decide) 0 1 (by decide) (by decide) (by decide)
    (by decide)
  exact h

/-! ## Claim C3 — aggregation mutates the caller's table -/

/-- C3 (counterexample): the claim says every core operation leaves the
caller's table unchanged.  `get_vehicle_metrics` does not: on a table
with both a make and a model column it writes a new `vehicle_type`
column into the caller's DataFrame (analyzer.py line 1265). -/
theorem get_vehicle_metrics_mutates_cex :
    (get_vehicle_metrics exVehicle).map Prod.snd =
      some (exVehicle ++
        [⟨"vehicle_type", .strCol [some "Toyota Camry"]⟩]) ∧
    (get_vehicle_metrics exVehicle).map Prod.snd ≠ some exVehicle := by
  refine ⟨by with_unfolding_all decide, by with_unfolding_all decide⟩

/-- C3 (amended): cleaning copies its input, but aggregation is not
pure: whenever both a make and a model column resolve and no
`vehicle_type` column exists yet, `get_vehicle_metrics` leaves the
caller's table with one extra column, named `vehicle_type`, appended —
the caller's table is changed.  (`get_sales_by_month` and
`get_top_vehicle` similarly write `date`/`month_year`/`full_vehicle`
columns.) -/
theorem get_vehicle_metrics_mutates (t : Table)
    (res : List VehicleRec × Table)
    (hres : get_vehicle_metrics t = some res)
    (hmk : (find_col t ["make", "vehicle_make"]).isSome = true)
    (hmd : (find_col t ["model", "vehicle_model"]).isSome = true)
    (hvt : ∀ c ∈ t, c.name ≠ "vehicle_type") :
    res.2 ≠ t ∧ res.2.length = t.length + 1 ∧
    res.2.map Col.name = t.map Col.name ++ ["vehicle_type"] := by
  rcases Option.isSome_iff_exists.mp hmk with ⟨mk, hmkeq⟩
  rcases Option.isSome_iff_exists.mp hmd with ⟨md, hmdeq⟩
  unfold get_vehicle_metrics at hres
  rw [hmkeq, hmdeq] at hres
  dsimp only [] at hres
  have hany : t.any (fun c => c.name = "vehicle_type") = false := by
    rw [List.any_eq_false]
    intro c hc
    simp [hvt c hc]
  rcases hs1 : strCells mk.data with _ | ms
  · rw [hs1] at hres
    exact absurd hres (by simp)
  · rcases hs2 : strCells md.data with _ | mds
    · rw [hs1, hs2] at hres
      exact absurd hres (by simp)
    · rw [hs1, hs2] at hres
      simp only [] at hres
      rcases hp : optNumCells (find_col t ["profit"]) with _ | pcells
      · rw [hp] at hres
        exact absurd hres (by simp)
      · rcases hpr : optNumCells
            (find_col t ["sold_price", "selling_price", "sale_price"]) with _ | prcells
        · rw [hp, hpr] at hres
          exact absurd hres (by simp)
        · rcases hd : optNumCells
              (find_col t ["days_to_close", "days_to_sell"]) with _ | dcells
          · rw [hp, hpr, hd] at hres
            exact absurd hres (by simp)
          · rw [hp, hpr, hd] at hres
            simp only [Option.some_inj] at hres
            have h2 : res.2 = setColOrAppend t "vehicle_type"
                (.strCol (concatCells ms mds)) := by
              rw [← hres]
            rw [setColOrAppend, hany] at h2
            simp only [Bool.false_eq_true, if_false] at h2
            refine ⟨?_, ?_, ?_⟩
            · intro hcontra
              have := congrArg List.length hcontra
              rw [h2] at this
              simp at this
            · rw [h2]
              simp
            · rw [h2]
              simp

/-- C3 (witness): the amended theorem at the concrete table. -/
theorem get_vehicle_metrics_mutates_witness :
    (([{ vtype := "Toyota Camry", sale_count := 1,
         total_profit := some 100, average_profit := some (some 100),
         total_sales := none, average_sale := none,
         average_days_to_sell := none }],
      exVehicle ++ [⟨"vehicle_type", .strCol [some "Toyota Camry"]⟩]) :
        List VehicleRec × Table).2 ≠ exVehicle := by
  have h := get_vehicle_metrics_mutates exVehicle
    ([{ vtype := "Toyota Camry", sale_count := 1,
        total_profit := some 100, average_profit := some (some 100),
        total_sales := none, average_sale := none,
        average_days_to_sell := none }],
     exVehicle ++ [⟨"vehicle_type", .strCol [some "Toyota Camry"]⟩])
    (by with_unfolding_all decide) (by decide) (by decide)
    (by decide)
  exact h.1

/-! ## Claim C7 — idempotence of cleaning -/

/-- C7 (counterexample): the claim says cleaning is idempotent on any
already-clean table (canonical monetary and date columns).  `exShift`
is already clean in that sense — `identify_monetary_columns` and
`identify_date_columns` both return the empty list on its normalized
form, so every identified column is vacuously canonical — yet cleaning
it twice differs from cleaning it once: the first pass fills the nine
missing cells of `notes` with empty strings, which shifts the 10-cell
date-detection sample window so that the second pass sees only
parseable values and converts the column to datetime. -/
theorem clean_data_not_idempotent_cex :
    identify_monetary_columns (normalize_column_names exShift) = [] ∧
    identify_date_columns (normalize_column_names exShift) = [] ∧
    clean_data (clean_data exShift) ≠ clean_data exShift := by
  refine ⟨?_, ?_, ?_⟩ <;> with_unfolding_all decide

/-- C7 (amended): cleaning is idempotent on a table whose normalized
column names are distinct, which has no monetary-identified column,
whose date-identified columns are already in the canonical form that
`clean_dates` produces (`days_to_close` numeric, `vehicle_year` and
generic date columns datetime, price columns untouched), and whose
`object` columns have no missing cells (so the missing-value fill
cannot shift the date-detection sample window of the second pass). -/
theorem clean_data_idem (t : Table)
    (hnd : ((normalize_column_names t).map Col.name).Nodup)
    (h1 : identify_monetary_columns (normalize_column_names t) = [])
    (h2 : ∀ c ∈ normalize_column_names t,
      date_candidate c = true → date_branch_ok c = true)
    (h3 : ∀ c ∈ normalize_column_names t, str_no_missing c = true) :
    clean_data (clean_data t) = clean_data t := by
  have hmap1 := clean_data_map t hnd
  have hnorm := normalize_clean t
  have hnd2 : ((normalize_column_names (clean_data t)).map Col.name).Nodup := by
    rw [hnorm, clean_data_names]
    exact hnd
  have hmap2 := clean_data_map (clean_data t) hnd2
  rw [hmap2, hnorm, hmap1, List.map_map]
  apply List.map_congr_left
  intro c hc
  have hm : mon_candidate c = false := by
    have h0 : (normalize_column_names t).filter mon_candidate = [] := by
      have h1' := h1
      rw [identify_monetary_columns] at h1'
      exact List.map_eq_nil_iff.mp h1'
    have h2' := List.filter_eq_nil_iff.mp h0 c hc
    simpa using h2'
  exact clean_col_idem c hm (h2 c hc) (h3 c hc)

/-- C7 (witness): the amended theorem at the already-clean table
`exClean` (a datetime `created_date` column and a numeric `profit`
column). -/
theorem clean_data_idem_witness :
    (((normalize_column_names exClean).map Col.name).Nodup ∧
      identify_monetary_columns (normalize_column_names exClean) = [] ∧
      (∀ c ∈ normalize_column_names exClean,
        date_candidate c = true → date_branch_ok c = true) ∧
      (∀ c ∈ normalize_column_names exClean, str_no_missing c = true)) ∧
    clean_data (clean_data exClean) = clean_data exClean :=
  ⟨⟨by with_unfolding_all decide, by with_unfolding_all decide,
    by with_unfolding_all decide, by with_unfolding_all decide⟩,
   clean_data_idem exClean (by with_unfolding_all decide)
     (by with_unfolding_all decide) (by with_unfolding_all decide)
     (by with_unfolding_all decide)⟩

end Watchdog
